import Mathlib

/-!
# Verification of the AirCal synchronization and recurrence engine

Shallow embedding of the core of the AirCal backend
(`backend/app/services/icalendar_service.py`,
`backend/app/services/recurrence_service.py`,
`backend/app/api/sync.py`, `backend/app/api/events.py`)
and proofs about the specification claims.

Modelling conventions:
* Python `datetime.date` / `datetime.datetime` values are represented by the
  inductive `DT`: a date is a day number, a date-time a count of minutes.
  Time-zone handling of `make_naive` is modelled separately by `PyDateTime`
  (a wall-clock value together with an optional UTC offset), because only
  `make_naive` looks at `tzinfo`.
* An iCalendar component is a name together with an ordered association list
  of properties (the `icalendar` library's `CaselessDict`, which preserves
  insertion order; property names are taken to be already case-normalized).
  `del component[n]` removes the entry, `component.add(n, v)` appends at the
  end, dict assignment `component[n] = v` replaces in place.
* The external libraries `caldav` and `recurring_ical_events` are oracles:
  push outcomes are boolean-valued parameters, recurrence-rule evaluation is
  a function parameter returning `none` exactly when the library raises.
-/

namespace AirCal

/-- A Python `date` (day number) or `datetime` (minutes since the epoch). -/
inductive DT
  | date (d : Int)
  | dateTime (t : Int)
  deriving DecidableEq, Repr

/-- `isinstance(v, date) and not isinstance(v, datetime)`. -/
def DT.isDateOnly : DT → Bool
  | .date _ => true
  | .dateTime _ => false

/-- Total order key used when comparing stored timestamps. -/
def DT.toMinutes : DT → Int
  | .date d => d * 1440
  | .dateTime t => t

/-- `datetime.combine(d, datetime.min.time())`; the identity on date-times. -/
def DT.combine : DT → DT
  | .date d => .dateTime (d * 1440)
  | .dateTime t => .dateTime t

/-- Python `+ timedelta` (in minutes): for a `date` only whole days count. -/
def DT.addDur : DT → Int → DT
  | .date d, m => .date (d + m.ediv 1440)
  | .dateTime t, m => .dateTime (t + m)

/-- Abstract rendering of `isoformat()`; only injectivity matters here. -/
def DT.iso : DT → String
  | .date d => "D" ++ toString d
  | .dateTime t => "T" ++ toString t

/-- A parsed iCalendar property value. -/
inductive ICalValue
  | text (s : String)
  | dt (v : DT)
  | recur (s : String)
  | int (n : Int)
  | dur (m : Int)
  | dates (ds : List DT)
  deriving DecidableEq, Repr

/-- Python `str()` of a property value. -/
def ICalValue.str : ICalValue → String
  | .text s => s
  | .dt v => v.iso
  | .recur s => s
  | .int n => toString n
  | .dur m => "P" ++ toString m
  | .dates _ => "dates"

/-- The `.dt` attribute, defined where the value is a date or date-time. -/
def ICalValue.dtOf : ICalValue → Option DT
  | .dt v => some v
  | _ => none

/-- The `.dt` attribute of a `vDuration`, in minutes. -/
def ICalValue.asDur : ICalValue → Int
  | .dur m => m
  | _ => 0

/-- Python `int()` of a `vInt`-valued property. -/
def ICalValue.asInt : ICalValue → Int
  | .int n => n
  | _ => 0

/-- Ordered property list of a component (insertion-ordered dict). -/
abbrev Props := List (String × ICalValue)

/-- `component.get(n)`. -/
def getProp (ps : Props) (n : String) : Option ICalValue :=
  (ps.find? (fun p => p.1 == n)).map (fun p => p.2)

/-- `n in component`. -/
def hasProp (ps : Props) (n : String) : Bool :=
  (getProp ps n).isSome

/-- `del component[n]` (removes the entry for `n`). -/
def delProp (ps : Props) (n : String) : Props :=
  ps.filter (fun p => !(p.1 == n))

/-- `component.add(n, v)`: appends at the end of the property list. -/
def addProp (ps : Props) (n : String) (v : ICalValue) : Props :=
  ps ++ [(n, v)]

/-- Dict assignment `component[n] = v`: replace in place, else append. -/
def setProp (ps : Props) (n : String) (v : ICalValue) : Props :=
  if hasProp ps n then ps.map (fun p => if p.1 == n then (n, v) else p)
  else addProp ps n v

/-- One component of a calendar (`VEVENT`, `VTODO`, ...). -/
structure VComponent where
  name : String
  props : Props
  deriving DecidableEq, Repr

/-- A parsed `VCALENDAR` container: its own properties and its components,
in `walk()` order. -/
structure VCal where
  props : Props
  comps : List VComponent
  deriving DecidableEq, Repr

/-- The dict returned by `parse_icalendar` for the first `VEVENT`. -/
structure ParsedEvent where
  uid : String
  summary : String
  description : Option String
  location : Option String
  start_dt : Option DT
  end_dt : Option DT
  all_day : Bool
  rrule : Option String
  exdate : Option String
  recurrence_id : Option String
  created : Option DT
  last_modified : Option DT
  sequence : Int
  deriving DecidableEq, Repr

/-- `str(component.get(n, ""))`. -/
def strOrEmpty (ps : Props) (n : String) : String :=
  match getProp ps n with
  | some v => v.str
  | none => ""

/-- `str(component.get(n, "")) or None`. -/
def strOrNone (ps : Props) (n : String) : Option String :=
  let s := strOrEmpty ps n
  if s = "" then none else some s

/-- `rrule.to_ical().decode()` of a property value. -/
def recurStr : ICalValue → String
  | .recur s => s
  | v => v.str

/-- The revision counter as read from a component:
`int(component.get("sequence", 0))` (lines 75 and 166). -/
def seqRead (ps : Props) : Int :=
  match getProp ps "sequence" with
  | some v => v.asInt
  | none => 0

/-- `start_dt = dtstart.dt if dtstart else None` (line 22). -/
def rawStart (ps : Props) : Option DT :=
  (getProp ps "dtstart").bind ICalValue.dtOf

/-- `end_dt = dtend.dt if dtend else None` (line 23). -/
def rawEnd (ps : Props) : Option DT :=
  (getProp ps "dtend").bind ICalValue.dtOf

/-- All-day detection (line 26): the start is a date-only value. -/
def allDayOf (ps : Props) : Bool :=
  match rawStart ps with
  | some v => v.isDateOnly
  | none => false

/-- Lines 29–38: derive a missing end from the duration, or default it. -/
def derivedEnd (ps : Props) : Option DT :=
  match rawEnd ps with
  | some e => some e
  | none =>
    match rawStart ps with
    | none => none
    | some s =>
      match getProp ps "duration" with
      | some d => some (s.addDur d.asDur)
      | none => if allDayOf ps then some (s.addDur 1440) else some s

/-- Lines 41–42: all-day dates are combined to midnight date-times. -/
def normStart (ps : Props) : Option DT :=
  match rawStart ps with
  | some v => if allDayOf ps && v.isDateOnly then some v.combine else some v
  | none => none

/-- Lines 43–44: all-day date ends are combined to midnight date-times. -/
def normEnd (ps : Props) : Option DT :=
  match derivedEnd ps with
  | some v => if allDayOf ps && v.isDateOnly then some v.combine else some v
  | none => none

/-- Lines 50–60: comma-joined exported excluded-date list. -/
def exdateStr (ps : Props) : Option String :=
  match getProp ps "exdate" with
  | some (.dates ds) => some (String.intercalate "," (ds.map DT.iso))
  | _ => none

/-- Field extraction of `parse_icalendar` applied to a `VEVENT`'s properties
(lines 17–76 of `icalendar_service.py`). -/
def parseVEvent (ps : Props) : ParsedEvent where
  uid := strOrEmpty ps "uid"
  summary := strOrEmpty ps "summary"
  description := strOrNone ps "description"
  location := strOrNone ps "location"
  start_dt := normStart ps
  end_dt := normEnd ps
  all_day := allDayOf ps
  rrule := (getProp ps "rrule").map recurStr
  exdate := exdateStr ps
  recurrence_id := strOrNone ps "recurrence-id"
  created := (getProp ps "created").bind ICalValue.dtOf
  last_modified := (getProp ps "last-modified").bind ICalValue.dtOf
  sequence := seqRead ps

/-- `parse_icalendar`: walk the components and return the fields of the first
`VEVENT`; `none` models the empty dict `{}` returned when no event block is
found (line 78). -/
def parse_icalendar (cal : VCal) : Option ParsedEvent :=
  (cal.comps.find? (fun c => c.name == "VEVENT")).map (fun c => parseVEvent c.props)

/-- Raised by `Calendar.from_ical` on text that is not a calendar at all. -/
inductive ParseError
  | malformed
  deriving DecidableEq, Repr

/-- `parse_icalendar` on raw text: `none` input models text rejected by the
container parser (`from_ical` raises), `some cal` a well-formed container. -/
def parse_icalendar_text (input : Option VCal) : Except ParseError (Option ParsedEvent) :=
  match input with
  | none => .error .malformed
  | some cal => .ok (parse_icalendar cal)

/-- The `EventUpdate` schema: a patch; `none` fields are absent. -/
structure EventUpdate where
  summary : Option String := none
  description : Option String := none
  location : Option String := none
  start : Option Int := none
  «end» : Option Int := none
  all_day : Option Bool := none
  timezone : Option String := none
  rrule : Option String := none
  deriving DecidableEq, Repr

/-- The `EventCreate` schema. -/
structure EventCreate where
  summary : String
  description : Option String := none
  location : Option String := none
  start : Int
  «end» : Int
  all_day : Bool := false
  timezone : Option String := none
  calendar_id : String
  rrule : Option String := none
  deriving DecidableEq, Repr

/-- Python truthiness of an optional string. -/
def pyTruthy : Option String → Bool
  | some s => !(s == "")
  | none => false

/-- `update.start.date()`: truncate a date-time (minutes) to its day. -/
def minutesToDay (t : Int) : Int := t.ediv 1440

/-- Lines 128–129: `component["summary"] = update.summary`. -/
def patchSummary (u : EventUpdate) (ps : Props) : Props :=
  match u.summary with
  | some s => setProp ps "summary" (.text s)
  | none => ps

/-- Lines 130–134: delete `description`, re-add it when truthy. -/
def patchDescription (u : EventUpdate) (ps : Props) : Props :=
  match u.description with
  | some d =>
    let ps := delProp ps "description"
    if d = "" then ps else addProp ps "description" (.text d)
  | none => ps

/-- Lines 135–139: delete `location`, re-add it when truthy. -/
def patchLocation (u : EventUpdate) (ps : Props) : Props :=
  match u.location with
  | some l =>
    let ps := delProp ps "location"
    if l = "" then ps else addProp ps "location" (.text l)
  | none => ps

/-- The successful-case transform of lines 141–146 (the value the component
holds after `del component["dtstart"]` succeeded and the retyped `dtstart`
was re-added); see `patchStart` for the exception path. -/
def patchStartT (u : EventUpdate) (ps : Props) : Props :=
  match u.start with
  | some t =>
    let ps := delProp ps "dtstart"
    if u.all_day = some true then addProp ps "dtstart" (.dt (.date (minutesToDay t)))
    else addProp ps "dtstart" (.dt (.dateTime t))
  | none => ps

/-- The successful-case transform of lines 148–153; see `patchEnd` for the
exception path. -/
def patchEndT (u : EventUpdate) (ps : Props) : Props :=
  match u.«end» with
  | some t =>
    let ps := delProp ps "dtend"
    if u.all_day = some true then addProp ps "dtend" (.dt (.date (minutesToDay t)))
    else addProp ps "dtend" (.dt (.dateTime t))
  | none => ps

/-- Lines 155–159: delete `rrule`, re-add it when truthy. -/
def patchRRule (u : EventUpdate) (ps : Props) : Props :=
  match u.rrule with
  | some r =>
    let ps := delProp ps "rrule"
    if r = "" then ps else addProp ps "rrule" (.recur r)
  | none => ps

/-- Lines 162–164: regenerate `last-modified` to now. -/
def patchLastModified (now : Int) (ps : Props) : Props :=
  addProp (delProp ps "last-modified") "last-modified" (.dt (.dateTime now))

/-- Lines 166–169: increment `sequence` by exactly one. -/
def patchSequence (ps : Props) : Props :=
  addProp (delProp ps "sequence") "sequence" (.int (seqRead ps + 1))

/-- The successful-case value of the per-`VEVENT` body of `update_icalendar`
(lines 128–169), assuming the two unconditional deletes did not raise. -/
def patchVEventT (now : Int) (u : EventUpdate) (ps : Props) : Props :=
  patchSequence (patchLastModified now
    (patchRRule u (patchEndT u (patchStartT u
      (patchLocation u (patchDescription u (patchSummary u ps)))))))

/-- `del component[n]` when the code does **not** guard with
`if n in component`: Python's `CaselessDict.__delitem__` raises `KeyError`
for an absent key; `none` models that exception. -/
def delPropStrict (ps : Props) (n : String) : Option Props :=
  if hasProp ps n then some (delProp ps n) else none

/-- Lines 141–146: `del component["dtstart"]` — unconditional, so it raises
`KeyError` when the component has no `dtstart` — then re-add the patched
start, retyped from `update.all_day`. -/
def patchStart (u : EventUpdate) (ps : Props) : Option Props :=
  match u.start with
  | some t =>
    (delPropStrict ps "dtstart").map (fun ps =>
      if u.all_day = some true then addProp ps "dtstart" (.dt (.date (minutesToDay t)))
      else addProp ps "dtstart" (.dt (.dateTime t)))
  | none => some ps

/-- Lines 148–153: `del component["dtend"]` — unconditional, so it raises
`KeyError` when the component has no `dtend` (e.g. a stored
`DTSTART`+`DURATION` text) — then re-add the patched end. -/
def patchEnd (u : EventUpdate) (ps : Props) : Option Props :=
  match u.«end» with
  | some t =>
    (delPropStrict ps "dtend").map (fun ps =>
      if u.all_day = some true then addProp ps "dtend" (.dt (.date (minutesToDay t)))
      else addProp ps "dtend" (.dt (.dateTime t)))
  | none => some ps

/-- The per-`VEVENT` body of `update_icalendar` (lines 128–169): `none`
models the `KeyError` escaping from one of the unconditional deletes, in
which case the function produces no text at all. -/
def patchVEvent (now : Int) (u : EventUpdate) (ps : Props) : Option Props :=
  (patchStart u (patchLocation u (patchDescription u (patchSummary u ps)))).bind
    (fun ps1 => (patchEnd u ps1).map (fun ps2 =>
      patchSequence (patchLastModified now (patchRRule u ps2))))

/-- The walk of `update_icalendar`: patch the first `VEVENT` then `break`;
an exception while patching it propagates out. -/
def patchFirstVEvent (now : Int) (u : EventUpdate) :
    List VComponent → Option (List VComponent)
  | [] => some []
  | c :: rest =>
    if c.name == "VEVENT" then
      (patchVEvent now u c.props).map
        (fun ps => { c with props := ps } :: rest)
    else (patchFirstVEvent now u rest).map (fun rest => c :: rest)

/-- `update_icalendar(existing_ical, update)` with the wall clock `now`
passed explicitly; `none` models the `KeyError` raised by the unconditional
`del component["dtstart"/"dtend"]` on a component lacking that property —
the exception propagates to the caller and no text is produced. -/
def update_icalendar (now : Int) (existing : VCal) (u : EventUpdate) :
    Option VCal :=
  (patchFirstVEvent now u existing.comps).map
    (fun comps => { existing with comps := comps })

/-- `create_icalendar(event, uid)` with the wall clock `now` explicit. -/
def create_icalendar (now : Int) (event : EventCreate) (uid : String) : VCal :=
  let ps : Props := [("uid", .text uid), ("summary", .text event.summary)]
  let ps :=
    match event.description with
    | some d => if d = "" then ps else addProp ps "description" (.text d)
    | none => ps
  let ps :=
    match event.location with
    | some l => if l = "" then ps else addProp ps "location" (.text l)
    | none => ps
  let ps :=
    if event.all_day then
      addProp (addProp ps "dtstart" (.dt (.date (minutesToDay event.start))))
        "dtend" (.dt (.date (minutesToDay event.«end»)))
    else
      addProp (addProp ps "dtstart" (.dt (.dateTime event.start)))
        "dtend" (.dt (.dateTime event.«end»))
  let ps :=
    match event.rrule with
    | some r => if r = "" then ps else addProp ps "rrule" (.recur r)
    | none => ps
  let ps := addProp ps "created" (.dt (.dateTime now))
  let ps := addProp ps "last-modified" (.dt (.dateTime now))
  let ps := addProp ps "dtstamp" (.dt (.dateTime now))
  let ps := addProp ps "sequence" (.int 0)
  { props := [("prodid", .text "-//AirCal//EN"), ("version", .text "2.0")]
    comps := [{ name := "VEVENT", props := ps }] }

/-! ## Local store and sync engine (`app/models/event.py`, `app/api/sync.py`) -/

/-- The `sync_status` column. -/
inductive SyncStatus
  | synced
  | pending_create
  | pending_update
  | pending_delete
  deriving DecidableEq, Repr

/-- A row of the `events` table (the fields the engine reads or writes). -/
structure LocalEvent where
  uid : String
  calendar_id : String
  etag : Option String
  href : Option String
  summary : String
  description : Option String
  location : Option String
  start_dt : Option DT
  end_dt : Option DT
  all_day : Bool
  timezone : Option String
  rrule : Option String
  exdate : Option String
  recurrence_id : Option String
  icalendar_data : VCal
  created : Option DT
  last_modified : Option DT
  sequence : Int
  sync_status : SyncStatus
  deriving DecidableEq, Repr

/-- One item of a remote fetch: `dav_event.data` already run through
`from_ical` (`none` when decoding or parsing the text raises), plus the
`etag` and `url` handles. -/
structure DavEvent where
  data : Option VCal
  etag : Option String
  url : Option String
  deriving DecidableEq, Repr

/-- The uid under which `do_sync` processes a fetched item: `none` when the
item is skipped (undecodable data, no `VEVENT`, or empty uid). -/
def processedUid (ev : DavEvent) : Option String :=
  match ev.data with
  | none => none
  | some cal =>
    match parse_icalendar cal with
    | none => none
    | some p => if p.uid = "" then none else some p.uid

/-- The uids recorded in `seen_uids` over a whole fetch, in order. -/
def processedUids (remote : List DavEvent) : List String :=
  remote.filterMap processedUid

/-- Lines 114–134: insert a new `synced` record from remote data. -/
def newFromRemote (calId : String) (p : ParsedEvent) (cal : VCal) (ev : DavEvent) :
    LocalEvent where
  uid := p.uid
  calendar_id := calId
  etag := ev.etag
  href := ev.url
  summary := p.summary
  description := p.description
  location := p.location
  start_dt := p.start_dt
  end_dt := p.end_dt
  all_day := p.all_day
  timezone := none
  rrule := p.rrule
  exdate := p.exdate
  recurrence_id := p.recurrence_id
  icalendar_data := cal
  created := p.created
  last_modified := p.last_modified
  sequence := p.sequence
  sync_status := .synced

/-- Lines 97–111: remote wins, overwrite the existing record from the server
(`sequence` and `created` are left as they were). -/
def overwriteFromRemote (p : ParsedEvent) (cal : VCal) (ev : DavEvent)
    (ex : LocalEvent) : LocalEvent :=
  { ex with
    summary := p.summary
    description := p.description
    location := p.location
    start_dt := p.start_dt
    end_dt := p.end_dt
    all_day := p.all_day
    rrule := p.rrule
    exdate := p.exdate
    recurrence_id := p.recurrence_id
    icalendar_data := cal
    etag := ev.etag
    href := ev.url
    last_modified := p.last_modified
    sync_status := .synced }

/-- Mutate the (unique) record with the given uid, as the ORM does after
`scalar_one_or_none`. -/
def replaceByUid (uid : String) (f : LocalEvent → LocalEvent) :
    List LocalEvent → List LocalEvent
  | [] => []
  | e :: rest =>
    if e.uid == uid then f e :: rest else e :: replaceByUid uid f rest

/-- Accumulator of the per-calendar event loop of `do_sync`. -/
structure SyncAcc where
  locals : List LocalEvent
  seen : List String
  count : Nat
  pushes : List (String × String × VCal)

/-- Lines 53–140 of `do_sync`: process one fetched item. The `push` oracle is
`service.async_update_event` (an exception counts as `false`); every update
push attempted is logged as `(uid, href, payload)`. -/
def processDav (push : String → VCal → Bool) (calId : String)
    (acc : SyncAcc) (ev : DavEvent) : SyncAcc :=
  match ev.data with
  | none => acc
  | some cal =>
    match parse_icalendar cal with
    | none => acc
    | some p =>
      if p.uid = "" then acc
      else
        let seen := acc.seen ++ [p.uid]
        match acc.locals.find? (fun e => e.uid == p.uid) with
        | some ex =>
          if ex.sync_status = .pending_update ∨ ex.sync_status = .pending_create then
            match ex.sync_status, ex.href with
            | .pending_update, some h =>
              let ok := push h ex.icalendar_data
              let locals :=
                if ok then
                  replaceByUid p.uid (fun e => { e with sync_status := .synced }) acc.locals
                else acc.locals
              { locals := locals, seen := seen, count := acc.count + 1
                pushes := acc.pushes ++ [(p.uid, h, ex.icalendar_data)] }
            | _, _ =>
              { acc with seen := seen, count := acc.count + 1 }
          else
            { acc with
              locals := replaceByUid p.uid (overwriteFromRemote p cal ev) acc.locals
              seen := seen
              count := acc.count + 1 }
        | none =>
          { acc with
            locals := acc.locals ++ [newFromRemote calId p cal ev]
            seen := seen
            count := acc.count + 1 }

/-- Result of reconciling one calendar. -/
structure CalSyncResult where
  locals : List LocalEvent
  events_updated : Nat
  pushes : List (String × String × VCal)

/-- Lines 47–154 of `do_sync` for one calendar: process every fetched item,
then delete local `synced` records whose uid was not seen. -/
def syncCalendar (push : String → VCal → Bool) (calId : String)
    (remote : List DavEvent) (locals : List LocalEvent) : CalSyncResult :=
  let acc := remote.foldl (processDav push calId) ⟨locals, [], 0, []⟩
  { locals := acc.locals.filter (fun e =>
      decide (e.uid ∈ acc.seen) || !(e.sync_status == .synced))
    events_updated := acc.count
    pushes := acc.pushes }

/-- One calendar of the database together with its remote fetch: `none`
models `get_calendar_by_url` returning nothing or the fetch raising
(the calendar is skipped). -/
structure CalendarState where
  id : String
  remote : Option (List DavEvent)
  locals : List LocalEvent

/-- One iteration of the calendar loop of `do_sync` (lines 40–158): a failed
calendar lookup or fetch skips the calendar, otherwise the calendar is
reconciled and the counters advance. -/
def doSyncStep (push : String → VCal → Bool)
    (acc : List CalendarState × Nat × Nat) (c : CalendarState) :
    List CalendarState × Nat × Nat :=
  match c.remote with
  | none => (acc.1 ++ [c], acc.2.1, acc.2.2)
  | some r =>
    let res := syncCalendar push c.id r c.locals
    (acc.1 ++ [{ c with locals := res.locals }], acc.2.1 + 1,
      acc.2.2 + res.events_updated)

/-- `do_sync` over all calendars: returns the updated calendar states, the
number of calendars synced and the reported `events_updated` total. -/
def do_sync (push : String → VCal → Bool) (cals : List CalendarState) :
    List CalendarState × Nat × Nat :=
  cals.foldl (doSyncStep push) ([], 0, 0)

/-- The number of items of one fetch that the event loop counts. -/
def remCount : Option (List DavEvent) → Nat
  | some r => r.countP (fun ev => (processedUid ev).isSome)
  | none => 0

/-- The number of fetched items a pass counts into `events_updated`,
a function of the fetches alone. -/
def passCount (cals : List CalendarState) : Nat :=
  (cals.map (fun c => remCount c.remote)).sum

/-- The sync status a pending record ends the pass with: pushed records
(`pending_update` with a handle) become `synced` exactly when the push
succeeds; every other pending record keeps its status. -/
def pendingResultStatus (push : String → VCal → Bool) (r : LocalEvent) :
    SyncStatus :=
  match r.sync_status, r.href with
  | .pending_update, some h =>
    if push h r.icalendar_data then .synced else .pending_update
  | st, _ => st

/-- The push attempts the pass makes for a pending record: exactly one
update push of the local canonical text for a `pending_update` record with
a handle, none otherwise. -/
def pendingPushLog (u : String) (r : LocalEvent) : List (String × String × VCal) :=
  match r.sync_status, r.href with
  | .pending_update, some h => [(u, h, r.icalendar_data)]
  | _, _ => []

/-! ## Recurrence expansion (`app/services/recurrence_service.py`) -/

/-- One expanded instance (`ExpandedEventResponse`). -/
structure ExpandedEventResponse where
  uid : String
  calendar_id : String
  summary : String
  description : Option String
  location : Option String
  start : Option DT
  «end» : Option DT
  all_day : Bool
  is_recurring : Bool
  master_uid : Option String
  rrule : Option String
  deriving DecidableEq, Repr

/-- An evaluator for `recurring_ical_events.of(cal).between(start, end)`:
returns the raw `(dtstart, dtend?)` pairs of the instances, or `none` when
the library (or `from_ical` on the stored text) raises. -/
abbrev RecurEval := VCal → Int → Int → Option (List (DT × Option DT))

/-- Lines 51–81: convert one raw instance (dates combined to midnight;
`make_naive` is the identity in this zone-free projection, see `PyDateTime`
for the zone behaviour it actually has). -/
def convertInstance (e : LocalEvent) (inst : DT × Option DT) :
    ExpandedEventResponse :=
  let istart := inst.1
  let iend := inst.2.getD inst.1
  let istart := if istart.isDateOnly then istart.combine else istart
  let iend := if iend.isDateOnly then iend.combine else iend
  { uid := e.uid, calendar_id := e.calendar_id, summary := e.summary
    description := e.description, location := e.location
    start := some istart, «end» := some iend, all_day := e.all_day
    is_recurring := true, master_uid := some e.uid, rrule := e.rrule }

/-- Lines 85–99: the fallback instance emitted when expansion fails. -/
def fallbackInstance (e : LocalEvent) : ExpandedEventResponse where
  uid := e.uid
  calendar_id := e.calendar_id
  summary := e.summary
  description := e.description
  location := e.location
  start := e.start_dt
  «end» := e.end_dt
  all_day := e.all_day
  is_recurring := true
  master_uid := some e.uid
  rrule := e.rrule

/-- Lines 102–116: the single instance of a non-recurring event. -/
def nonRecurringInstance (e : LocalEvent) : ExpandedEventResponse where
  uid := e.uid
  calendar_id := e.calendar_id
  summary := e.summary
  description := e.description
  location := e.location
  start := e.start_dt
  «end» := e.end_dt
  all_day := e.all_day
  is_recurring := false
  master_uid := none
  rrule := none

/-- The instances contributed by one event (lines 41–116). -/
def expandOne (evalR : RecurEval) (ws we : Int) (e : LocalEvent) :
    List ExpandedEventResponse :=
  if pyTruthy e.rrule then
    match evalR e.icalendar_data ws we with
    | some insts => insts.map (convertInstance e)
    | none => [fallbackInstance e]
  else [nonRecurringInstance e]

/-- Sort key of line 119 (`key=lambda e: e.start`). -/
def instKey (i : ExpandedEventResponse) : Int :=
  match i.start with
  | some v => v.toMinutes
  | none => 0

/-- `expand_recurring_events(events, start, end)`. -/
def expand_recurring_events (evalR : RecurEval) (events : List LocalEvent)
    (start «end» : Int) : List ExpandedEventResponse :=
  (events.foldr (fun e acc => expandOne evalR start «end» e ++ acc) []).mergeSort
    (fun a b => instKey a ≤ instKey b)

/-! ## Events API (`app/api/events.py`) -/

/-- The SQL row filter of `list_events` (lines 60–68); a NULL comparison is
not satisfied. -/
def eventMatchesQuery (ws we : Int) (e : LocalEvent) : Bool :=
  (match e.start_dt with
   | some s => decide (s.toMinutes ≤ we)
   | none => false) &&
  (e.rrule.isSome ||
   (match e.end_dt with
    | some en => decide (ws ≤ en.toMinutes)
    | none => false))

/-- `list_events(start, end, calendar_ids)` over the given table contents. -/
def list_events (evalR : RecurEval) (calendar_ids : Option (List String))
    (start «end» : Int) (db : List LocalEvent) : List ExpandedEventResponse :=
  let db :=
    match calendar_ids with
    | some ids => db.filter (fun (e : LocalEvent) => ids.contains e.calendar_id)
    | none => db
  let db := db.filter (eventMatchesQuery start «end»)
  expand_recurring_events evalR db start «end»

/-- The remote side of the events API, as oracles: `getCalendar` is whether
`get_calendar_by_url` returns a calendar; the three push operations return
their caught outcome (`createEvent` a href or `none`, the others a flag). -/
structure RemoteOracle where
  getCalendar : Bool
  createEvent : VCal → Option String
  updateEvent : String → VCal → Bool
  deleteEvent : String → Bool

/-- The local row written by `create_event` (lines 143–159). -/
def localEventOfCreate (now : Int) (uid : String) (href : Option String)
    (event : EventCreate) (ical : VCal) : LocalEvent where
  uid := uid
  calendar_id := event.calendar_id
  etag := none
  href := href
  summary := event.summary
  description := event.description
  location := event.location
  start_dt := some (.dateTime event.start)
  end_dt := some (.dateTime event.«end»)
  all_day := event.all_day
  timezone := event.timezone
  rrule := event.rrule
  exdate := none
  recurrence_id := none
  icalendar_data := ical
  created := some (.dateTime now)
  last_modified := some (.dateTime now)
  sequence := 0
  sync_status := if href.isSome then .synced else .pending_create

/-- `create_event` (lines 114–163): build the text, try the remote create
first, then write the local record, `synced` only when a href came back.
Returns the table afterwards and the payloads for which a remote create was
attempted. -/
def create_event (svc : Option RemoteOracle) (now : Int) (uid : String)
    (event : EventCreate) (db : List LocalEvent) :
    List LocalEvent × List VCal :=
  let ical := create_icalendar now event uid
  let hrefAttempts : Option String × List VCal :=
    match svc with
    | some s => if s.getCalendar then (s.createEvent ical, [ical]) else (none, [])
    | none => (none, [])
  (db ++ [localEventOfCreate now uid hrefAttempts.1 event ical], hrefAttempts.2)

/-- Lines 220–241 of `update_event`: apply the patch to the local structured
fields, store the new canonical text, stamp, and mark `pending_update`. -/
def applyLocalUpdate (u : EventUpdate) (now : Int) (newIcal : VCal)
    (e : LocalEvent) : LocalEvent :=
  { e with
    summary := u.summary.getD e.summary
    description := match u.description with
      | some d => some d
      | none => e.description
    location := match u.location with
      | some l => some l
      | none => e.location
    start_dt := match u.start with
      | some t => some (.dateTime t)
      | none => e.start_dt
    end_dt := match u.«end» with
      | some t => some (.dateTime t)
      | none => e.end_dt
    all_day := u.all_day.getD e.all_day
    timezone := match u.timezone with
      | some z => some z
      | none => e.timezone
    rrule := match u.rrule with
      | some r => some r
      | none => e.rrule
    icalendar_data := newIcal
    last_modified := some (.dateTime now)
    sync_status := .pending_update }

/-- Outcome of `update_event`: the 404 branch, the `KeyError` escaping from
`update_icalendar` (nothing is written, the request fails), or the table
afterwards together with the `(href, payload)` update pushes attempted. -/
inductive UpdateResult
  | notFound
  | patchError
  | ok (db : List LocalEvent) (pushes : List (String × VCal))

/-- `update_event` (lines 183–276): look the record up, patch the canonical
text (a `KeyError` there aborts before any local write), apply the patch to
the local record first (`pending_update`, new text), then attempt one remote
update push when connected with a handle; only a successful push flips the
status to `synced`. -/
def update_event (svc : Option RemoteOracle) (now : Int) (uid : String)
    (u : EventUpdate) (db : List LocalEvent) : UpdateResult :=
  match db.find? (fun e => e.uid == uid) with
  | none => .notFound
  | some e =>
    match update_icalendar now e.icalendar_data u with
    | none => .patchError
    | some newIcal =>
      let e1 := applyLocalUpdate u now newIcal e
      match svc, e1.href with
      | some s, some h =>
        if s.getCalendar then
          if s.updateEvent h newIcal then
            .ok (replaceByUid uid
              (fun _ => { e1 with sync_status := .synced }) db) [(h, newIcal)]
          else .ok (replaceByUid uid (fun _ => e1) db) [(h, newIcal)]
        else .ok (replaceByUid uid (fun _ => e1) db) []
      | _, _ => .ok (replaceByUid uid (fun _ => e1) db) []

/-- Result of `delete_event`: the table afterwards and the hrefs for which a
remote delete was attempted (its boolean result is ignored by the code). -/
structure DeleteResult where
  db : List LocalEvent
  remoteDeletes : List String
  deriving DecidableEq, Repr

/-- `delete_event` (lines 296–343): `none` is the 404 branch; otherwise try
the remote delete when connected and a href exists — ignoring the outcome —
and always delete the local record. -/
def delete_event (svc : Option RemoteOracle) (uid : String)
    (db : List LocalEvent) : Option DeleteResult :=
  match db.find? (fun e => e.uid == uid) with
  | none => none
  | some e =>
    let dels : List String :=
      match svc, e.href with
      | some s, some h => if s.getCalendar then [h] else []
      | _, _ => []
    some { db := db.filter (fun x => !(x.uid == uid)), remoteDeletes := dels }

/-! ## Time-zone behaviour of `make_naive` (`recurrence_service.py` 10–14) -/

/-- A Python `datetime` as a wall-clock reading (minutes) together with its
`utcoffset` in minutes (`none` for a naive value). -/
structure PyDateTime where
  wall : Int
  utcoffset : Option Int
  deriving DecidableEq, Repr

/-- `make_naive(dt)`: `dt.replace(tzinfo=None)` when aware — the wall-clock
reading is kept unchanged, only the zone marker is dropped. -/
def make_naive (dt : PyDateTime) : PyDateTime :=
  if dt.utcoffset.isSome then { wall := dt.wall, utcoffset := none } else dt

/-- The instant a value denotes, expressed in the UTC reference zone
(a naive value is read as already being in the reference zone). -/
def instantUTC (dt : PyDateTime) : Int :=
  dt.wall - dt.utcoffset.getD 0

/-! ## Sample values used in concrete counterexamples and witnesses -/

/-- A tiny all-day `VEVENT`. -/
def sampleVEvent : VComponent :=
  ⟨"VEVENT", [("uid", .text "e1"), ("summary", .text "s"),
    ("dtstart", .dt (.date 10)), ("dtend", .dt (.date 11)), ("sequence", .int 0)]⟩

/-- A tiny calendar containing `sampleVEvent`. -/
def sampleCal : VCal := ⟨[], [sampleVEvent]⟩

/-- A second `VEVENT`, e.g. a recurrence-override block after the first. -/
def sampleVEvent2 : VComponent :=
  ⟨"VEVENT", [("uid", .text "e1"), ("recurrence-id", .text "r1"),
    ("summary", .text "override"), ("dtstart", .dt (.dateTime 30))]⟩

/-- A calendar container holding no event block at all. -/
def noEventCal : VCal := ⟨[], [⟨"VTODO", [("uid", .text "t1")]⟩]⟩

/-- A fetched item whose text is `sampleCal`. -/
def sampleDav : DavEvent := ⟨some sampleCal, some "t1", some "u1"⟩

/-- A push oracle for which every remote operation fails. -/
def pushFail : String → VCal → Bool := fun _ _ => false

/-- A connected remote service on which every push operation fails. -/
def failingService : RemoteOracle :=
  ⟨true, fun _ => none, fun _ _ => false, fun _ => false⟩

/-- A local record in `pending_create` with uid `e1` and no remote handle. -/
def samplePendingCreate : LocalEvent where
  uid := "e1"
  calendar_id := "c"
  etag := none
  href := none
  summary := "local summary"
  description := none
  location := none
  start_dt := some (.dateTime 5)
  end_dt := some (.dateTime 6)
  all_day := false
  timezone := none
  rrule := none
  exdate := none
  recurrence_id := none
  icalendar_data := ⟨[], []⟩
  created := none
  last_modified := none
  sequence := 0
  sync_status := .pending_create

/-- A local record in `pending_update` with uid `e1` and remote handle `h`. -/
def samplePendingUpdate : LocalEvent :=
  { samplePendingCreate with
    sync_status := .pending_update
    href := some "h"
    summary := "locally edited" }

/-- A synced non-recurring record spanning minutes 60–120. -/
def sampleSynced : LocalEvent :=
  { samplePendingCreate with
    sync_status := .synced
    href := some "h"
    start_dt := some (.dateTime 60)
    end_dt := some (.dateTime 120) }

/-- A recurrence evaluator that always raises. -/
def evalRaises : RecurEval := fun _ _ _ => none

/-- A recurring local record (daily rule) with stored span 60–120. -/
def sampleRecurring : LocalEvent :=
  { sampleSynced with rrule := some "FREQ=DAILY" }

/-- A concrete `EventCreate` request. -/
def sampleCreate : EventCreate where
  summary := "new event"
  start := 600
  «end» := 660
  calendar_id := "c"

/-! ## Property-list lemmas -/

theorem getProp_cons (m : String) (v : ICalValue) (ps : Props) (n : String) :
    getProp ((m, v) :: ps) n = if m = n then some v else getProp ps n := by
  by_cases h : m = n
  · subst h
    simp [getProp, List.find?_cons_of_pos]
  · rw [if_neg h]
    unfold getProp
    rw [List.find?_cons_of_neg]
    simpa using h

theorem delProp_cons (k : String) (v : ICalValue) (ps : Props) (n : String) :
    delProp ((k, v) :: ps) n =
      if k = n then delProp ps n else (k, v) :: delProp ps n := by
  by_cases hk : k = n
  · have : (!(k == n)) = false := by simpa using hk
    simp [delProp, List.filter_cons, this, hk]
  · have : (!(k == n)) = true := by simpa using hk
    simp [delProp, List.filter_cons, this, hk]

theorem getProp_delProp (ps : Props) (n m : String) :
    getProp (delProp ps n) m = if n = m then none else getProp ps m := by
  induction ps with
  | nil => simp [delProp, getProp]
  | cons p ps ih =>
    obtain ⟨k, v⟩ := p
    rw [delProp_cons]
    by_cases hk : k = n
    · rw [if_pos hk, ih, getProp_cons]
      by_cases hnm : n = m
      · rw [if_pos hnm, if_pos hnm]
      · rw [if_neg hnm, if_neg hnm]
        have : ¬ k = m := fun h => hnm ((hk.symm.trans h))
        rw [if_neg this]
    · rw [if_neg hk, getProp_cons, getProp_cons]
      by_cases hkm : k = m
      · have : ¬ n = m := fun h => hk (hkm.trans h.symm)
        rw [if_pos hkm, if_pos hkm, if_neg this]
      · rw [if_neg hkm, if_neg hkm, ih]

theorem getProp_append (ps qs : Props) (n : String) :
    getProp (ps ++ qs) n =
      match getProp ps n with
      | some v => some v
      | none => getProp qs n := by
  induction ps with
  | nil => simp [getProp]
  | cons p ps ih =>
    obtain ⟨k, v⟩ := p
    by_cases hk : k = n
    · subst hk
      rw [List.cons_append, getProp_cons, getProp_cons, if_pos rfl, if_pos rfl]
    · rw [List.cons_append, getProp_cons, getProp_cons, if_neg hk, if_neg hk, ih]

theorem getProp_addProp (ps : Props) (n : String) (v : ICalValue) (m : String) :
    getProp (addProp ps n v) m =
      match getProp ps m with
      | some w => some w
      | none => if n = m then some v else none := by
  rw [addProp, getProp_append]
  cases getProp ps m with
  | some w => rfl
  | none =>
    simp only []
    rw [getProp_cons]
    rfl

theorem getProp_addProp_ne (ps : Props) (n : String) (v : ICalValue) (m : String)
    (h : n ≠ m) : getProp (addProp ps n v) m = getProp ps m := by
  rw [getProp_addProp]
  cases getProp ps m with
  | some w => rfl
  | none => simp [h]

theorem getProp_addProp_delProp (ps : Props) (n : String) (v : ICalValue) :
    getProp (addProp (delProp ps n) n v) n = some v := by
  rw [getProp_addProp, getProp_delProp, if_pos rfl, if_pos rfl]

theorem getProp_delProp_ne (ps : Props) (n m : String) (h : n ≠ m) :
    getProp (delProp ps n) m = getProp ps m := by
  rw [getProp_delProp, if_neg h]

theorem getProp_mapReplace_self (ps : Props) (n : String) (v : ICalValue) :
    getProp (ps.map (fun p => if p.1 == n then (n, v) else p)) n =
      (getProp ps n).map (fun _ => v) := by
  induction ps with
  | nil => rfl
  | cons p ps ih =>
    obtain ⟨k, w⟩ := p
    by_cases hk : k = n
    · have : ((k, w).1 == n) = true := by simpa using hk
      simp only [List.map_cons, this, if_pos]
      rw [getProp_cons, getProp_cons, if_pos rfl, if_pos hk]
      rfl
    · have : ((k, w).1 == n) = false := by simpa using hk
      simp only [List.map_cons, this, Bool.false_eq_true, if_neg, not_false_iff]
      rw [getProp_cons, getProp_cons, if_neg hk, if_neg hk, ih]

theorem getProp_mapReplace_ne (ps : Props) (n : String) (v : ICalValue) (m : String)
    (h : n ≠ m) :
    getProp (ps.map (fun p => if p.1 == n then (n, v) else p)) m = getProp ps m := by
  induction ps with
  | nil => rfl
  | cons p ps ih =>
    obtain ⟨k, w⟩ := p
    by_cases hk : k = n
    · have : ((k, w).1 == n) = true := by simpa using hk
      simp only [List.map_cons, this, if_pos]
      rw [getProp_cons, getProp_cons, if_neg h]
      have : ¬ k = m := fun hkm => h (hk ▸ hkm)
      rw [if_neg this, ih]
    · have : ((k, w).1 == n) = false := by simpa using hk
      simp only [List.map_cons, this, Bool.false_eq_true, if_neg, not_false_iff]
      rw [getProp_cons, getProp_cons, ih]

theorem getProp_setProp_self (ps : Props) (n : String) (v : ICalValue) :
    getProp (setProp ps n v) n = some v := by
  unfold setProp
  by_cases h : hasProp ps n
  · rw [if_pos h, getProp_mapReplace_self]
    unfold hasProp at h
    cases hg : getProp ps n with
    | some w => rfl
    | none => rw [hg] at h; simp at h
  · rw [if_neg h]
    unfold hasProp at h
    rw [getProp_addProp]
    cases hg : getProp ps n with
    | some w => rw [hg] at h; simp at h
    | none => simp

theorem getProp_setProp_ne (ps : Props) (n : String) (v : ICalValue) (m : String)
    (h : n ≠ m) : getProp (setProp ps n v) m = getProp ps m := by
  unfold setProp
  by_cases hh : hasProp ps n
  · rw [if_pos hh]
    exact getProp_mapReplace_ne ps n v m h
  · rw [if_neg hh]
    exact getProp_addProp_ne ps n v m h

/-! ## Patch-stage lemmas: which properties each stage can touch -/

theorem getProp_patchSummary (u : EventUpdate) (ps : Props) (m : String)
    (h : u.summary.isSome → m ≠ "summary") :
    getProp (patchSummary u ps) m = getProp ps m := by
  cases hs : u.summary with
  | none => simp [patchSummary, hs]
  | some s =>
    simp only [patchSummary, hs]
    exact getProp_setProp_ne ps "summary" (.text s) m
      (fun he => h (by simp [hs]) he.symm)

theorem getProp_patchDescription (u : EventUpdate) (ps : Props) (m : String)
    (h : u.description.isSome → m ≠ "description") :
    getProp (patchDescription u ps) m = getProp ps m := by
  cases hs : u.description with
  | none => simp [patchDescription, hs]
  | some d =>
    have hm : "description" ≠ m := fun he => h (by simp [hs]) he.symm
    by_cases hd : d = ""
    · simp only [patchDescription, hs, if_pos hd]
      exact getProp_delProp_ne ps "description" m hm
    · simp only [patchDescription, hs, if_neg hd]
      rw [getProp_addProp_ne _ _ _ _ hm]
      exact getProp_delProp_ne ps "description" m hm

theorem getProp_patchLocation (u : EventUpdate) (ps : Props) (m : String)
    (h : u.location.isSome → m ≠ "location") :
    getProp (patchLocation u ps) m = getProp ps m := by
  cases hs : u.location with
  | none => simp [patchLocation, hs]
  | some l =>
    have hm : "location" ≠ m := fun he => h (by simp [hs]) he.symm
    by_cases hl : l = ""
    · simp only [patchLocation, hs, if_pos hl]
      exact getProp_delProp_ne ps "location" m hm
    · simp only [patchLocation, hs, if_neg hl]
      rw [getProp_addProp_ne _ _ _ _ hm]
      exact getProp_delProp_ne ps "location" m hm

theorem getProp_patchStart_ne (u : EventUpdate) (ps : Props) (m : String)
    (h : u.start.isSome → m ≠ "dtstart") :
    getProp (patchStartT u ps) m = getProp ps m := by
  cases hs : u.start with
  | none => simp [patchStartT, hs]
  | some t =>
    have hm : "dtstart" ≠ m := fun he => h (by simp [hs]) he.symm
    by_cases ha : u.all_day = some true
    · simp only [patchStartT, hs, if_pos ha]
      rw [getProp_addProp_ne _ _ _ _ hm]
      exact getProp_delProp_ne ps "dtstart" m hm
    · simp only [patchStartT, hs, if_neg ha]
      rw [getProp_addProp_ne _ _ _ _ hm]
      exact getProp_delProp_ne ps "dtstart" m hm

theorem getProp_patchStart_self (u : EventUpdate) (ps : Props) (t : Int)
    (hs : u.start = some t) :
    getProp (patchStartT u ps) "dtstart" =
      some (.dt (if u.all_day = some true then .date (minutesToDay t)
                 else .dateTime t)) := by
  by_cases ha : u.all_day = some true
  · simp only [patchStartT, hs, if_pos ha]
    exact getProp_addProp_delProp ps "dtstart" _
  · simp only [patchStartT, hs, if_neg ha]
    exact getProp_addProp_delProp ps "dtstart" _

theorem getProp_patchEnd_ne (u : EventUpdate) (ps : Props) (m : String)
    (h : u.«end».isSome → m ≠ "dtend") :
    getProp (patchEndT u ps) m = getProp ps m := by
  cases hs : u.«end» with
  | none => simp [patchEndT, hs]
  | some t =>
    have hm : "dtend" ≠ m := fun he => h (by simp [hs]) he.symm
    by_cases ha : u.all_day = some true
    · simp only [patchEndT, hs, if_pos ha]
      rw [getProp_addProp_ne _ _ _ _ hm]
      exact getProp_delProp_ne ps "dtend" m hm
    · simp only [patchEndT, hs, if_neg ha]
      rw [getProp_addProp_ne _ _ _ _ hm]
      exact getProp_delProp_ne ps "dtend" m hm

theorem getProp_patchEnd_self (u : EventUpdate) (ps : Props) (t : Int)
    (hs : u.«end» = some t) :
    getProp (patchEndT u ps) "dtend" =
      some (.dt (if u.all_day = some true then .date (minutesToDay t)
                 else .dateTime t)) := by
  by_cases ha : u.all_day = some true
  · simp only [patchEndT, hs, if_pos ha]
    exact getProp_addProp_delProp ps "dtend" _
  · simp only [patchEndT, hs, if_neg ha]
    exact getProp_addProp_delProp ps "dtend" _

theorem getProp_patchRRule (u : EventUpdate) (ps : Props) (m : String)
    (h : u.rrule.isSome → m ≠ "rrule") :
    getProp (patchRRule u ps) m = getProp ps m := by
  cases hs : u.rrule with
  | none => simp [patchRRule, hs]
  | some r =>
    have hm : "rrule" ≠ m := fun he => h (by simp [hs]) he.symm
    by_cases hr : r = ""
    · simp only [patchRRule, hs, if_pos hr]
      exact getProp_delProp_ne ps "rrule" m hm
    · simp only [patchRRule, hs, if_neg hr]
      rw [getProp_addProp_ne _ _ _ _ hm]
      exact getProp_delProp_ne ps "rrule" m hm

theorem getProp_patchLastModified_ne (now : Int) (ps : Props) (m : String)
    (h : m ≠ "last-modified") :
    getProp (patchLastModified now ps) m = getProp ps m := by
  unfold patchLastModified
  rw [getProp_addProp_ne _ _ _ _ (fun he => h he.symm)]
  exact getProp_delProp_ne ps "last-modified" m (fun he => h he.symm)

theorem getProp_patchLastModified_self (now : Int) (ps : Props) :
    getProp (patchLastModified now ps) "last-modified" =
      some (.dt (.dateTime now)) :=
  getProp_addProp_delProp ps "last-modified" _

theorem getProp_patchSequence_ne (ps : Props) (m : String) (h : m ≠ "sequence") :
    getProp (patchSequence ps) m = getProp ps m := by
  unfold patchSequence
  rw [getProp_addProp_ne _ _ _ _ (fun he => h he.symm)]
  exact getProp_delProp_ne ps "sequence" m (fun he => h he.symm)

theorem getProp_patchSequence_self (ps : Props) :
    getProp (patchSequence ps) "sequence" = some (.int (seqRead ps + 1)) :=
  getProp_addProp_delProp ps "sequence" _

/-- Master lemma: a property the patch does not touch is byte-identical
after `patchVEventT`. -/
theorem getProp_patchVEvent_untouched (now : Int) (u : EventUpdate) (ps : Props)
    (m : String)
    (hlm : m ≠ "last-modified") (hsq : m ≠ "sequence")
    (h1 : u.summary.isSome → m ≠ "summary")
    (h2 : u.description.isSome → m ≠ "description")
    (h3 : u.location.isSome → m ≠ "location")
    (h4 : u.start.isSome → m ≠ "dtstart")
    (h5 : u.«end».isSome → m ≠ "dtend")
    (h6 : u.rrule.isSome → m ≠ "rrule") :
    getProp (patchVEventT now u ps) m = getProp ps m := by
  unfold patchVEventT
  rw [getProp_patchSequence_ne _ _ hsq, getProp_patchLastModified_ne _ _ _ hlm,
    getProp_patchRRule _ _ _ h6, getProp_patchEnd_ne _ _ _ h5,
    getProp_patchStart_ne _ _ _ h4, getProp_patchLocation _ _ _ h3,
    getProp_patchDescription _ _ _ h2, getProp_patchSummary _ _ _ h1]

/-- After `patchVEventT`, `dtstart` is the patched value (when named) or the
original one. -/
theorem getProp_patchVEvent_dtstart (now : Int) (u : EventUpdate) (ps : Props) :
    getProp (patchVEventT now u ps) "dtstart" =
      match u.start with
      | some t => some (.dt (if u.all_day = some true then .date (minutesToDay t)
                             else .dateTime t))
      | none => getProp ps "dtstart" := by
  unfold patchVEventT
  rw [getProp_patchSequence_ne _ _ (by decide),
    getProp_patchLastModified_ne _ _ _ (by decide),
    getProp_patchRRule _ _ _ (fun _ => by decide),
    getProp_patchEnd_ne _ _ _ (fun _ => by decide)]
  cases hs : u.start with
  | some t =>
    exact getProp_patchStart_self u _ t hs
  | none =>
    rw [getProp_patchStart_ne _ _ _ (by simp [hs]),
      getProp_patchLocation _ _ _ (fun _ => by decide),
      getProp_patchDescription _ _ _ (fun _ => by decide),
      getProp_patchSummary _ _ _ (fun _ => by decide)]

/-- After `patchVEventT`, `dtend` is the patched value (when named) or the
original one. -/
theorem getProp_patchVEvent_dtend (now : Int) (u : EventUpdate) (ps : Props) :
    getProp (patchVEventT now u ps) "dtend" =
      match u.«end» with
      | some t => some (.dt (if u.all_day = some true then .date (minutesToDay t)
                             else .dateTime t))
      | none => getProp ps "dtend" := by
  unfold patchVEventT
  rw [getProp_patchSequence_ne _ _ (by decide),
    getProp_patchLastModified_ne _ _ _ (by decide),
    getProp_patchRRule _ _ _ (fun _ => by decide)]
  cases hs : u.«end» with
  | some t =>
    exact getProp_patchEnd_self u _ t hs
  | none =>
    rw [getProp_patchEnd_ne _ _ _ (by simp [hs]),
      getProp_patchStart_ne _ _ _ (fun _ => by decide),
      getProp_patchLocation _ _ _ (fun _ => by decide),
      getProp_patchDescription _ _ _ (fun _ => by decide),
      getProp_patchSummary _ _ _ (fun _ => by decide)]

/-- After `patchVEventT`, `last-modified` is always regenerated to now. -/
theorem getProp_patchVEvent_lastModified (now : Int) (u : EventUpdate)
    (ps : Props) :
    getProp (patchVEventT now u ps) "last-modified" =
      some (.dt (.dateTime now)) := by
  unfold patchVEventT
  rw [getProp_patchSequence_ne _ _ (by decide)]
  exact getProp_patchLastModified_self now _

/-- After `patchVEventT`, the revision counter is the old one plus one. -/
theorem seqRead_patchVEvent (now : Int) (u : EventUpdate) (ps : Props) :
    seqRead (patchVEventT now u ps) = seqRead ps + 1 := by
  have hpre : getProp (patchLastModified now
      (patchRRule u (patchEndT u (patchStartT u (patchLocation u
        (patchDescription u (patchSummary u ps))))))) "sequence" =
      getProp ps "sequence" := by
    rw [getProp_patchLastModified_ne _ _ _ (by decide),
      getProp_patchRRule _ _ _ (fun _ => by decide),
      getProp_patchEnd_ne _ _ _ (fun _ => by decide),
      getProp_patchStart_ne _ _ _ (fun _ => by decide),
      getProp_patchLocation _ _ _ (fun _ => by decide),
      getProp_patchDescription _ _ _ (fun _ => by decide),
      getProp_patchSummary _ _ _ (fun _ => by decide)]
  unfold patchVEventT
  rw [seqRead, getProp_patchSequence_self]
  show (ICalValue.int (seqRead _ + 1)).asInt = _
  rw [ICalValue.asInt]
  unfold seqRead
  rw [hpre]

/-! ## First-VEVENT decomposition -/

theorem find?_vevent_decomp (pre : List VComponent) (v : VComponent)
    (post : List VComponent) (hpre : ∀ c ∈ pre, c.name ≠ "VEVENT")
    (hv : v.name = "VEVENT") :
    (pre ++ v :: post).find? (fun c => c.name == "VEVENT") = some v := by
  induction pre with
  | nil =>
    rw [List.nil_append, List.find?_cons_of_pos _ (by simpa using hv)]
  | cons c cs ih =>
    have hc : c.name ≠ "VEVENT" := hpre c (by simp)
    rw [List.cons_append, List.find?_cons_of_neg _ (by simpa using hc)]
    exact ih (fun c' hc' => hpre c' (by simp [hc']))

/-- A property untouched by the summary, description and location stages is
present afterwards exactly when it was present before. -/
theorem hasProp_prefix_stages (u : EventUpdate) (ps : Props) (m : String)
    (hm1 : m ≠ "summary") (hm2 : m ≠ "description") (hm3 : m ≠ "location") :
    hasProp (patchLocation u (patchDescription u (patchSummary u ps))) m =
      hasProp ps m := by
  unfold hasProp
  rw [getProp_patchLocation _ _ _ (fun _ => hm3),
    getProp_patchDescription _ _ _ (fun _ => hm2),
    getProp_patchSummary _ _ _ (fun _ => hm1)]

/-- `del component["dtstart"]` succeeds exactly when `dtstart` is present;
then `patchStart` computes the successful-case transform. -/
theorem patchStart_eq_some (u : EventUpdate) (ps : Props)
    (h : u.start ≠ none → hasProp ps "dtstart" = true) :
    patchStart u ps = some (patchStartT u ps) := by
  cases hs : u.start with
  | none => simp [patchStart, patchStartT, hs]
  | some t =>
    have hp : hasProp ps "dtstart" = true := h (by simp [hs])
    simp [patchStart, patchStartT, hs, delPropStrict, hp]

/-- `del component["dtend"]` succeeds exactly when `dtend` is present; then
`patchEnd` computes the successful-case transform. -/
theorem patchEnd_eq_some (u : EventUpdate) (ps : Props)
    (h : u.«end» ≠ none → hasProp ps "dtend" = true) :
    patchEnd u ps = some (patchEndT u ps) := by
  cases hs : u.«end» with
  | none => simp [patchEnd, patchEndT, hs]
  | some t =>
    have hp : hasProp ps "dtend" = true := h (by simp [hs])
    simp [patchEnd, patchEndT, hs, delPropStrict, hp]

/-- When the properties the patch deletes unconditionally are present, the
patch succeeds and produces the successful-case transform. -/
theorem patchVEvent_eq_someT (now : Int) (u : EventUpdate) (ps : Props)
    (hps : u.start ≠ none → hasProp ps "dtstart" = true)
    (hpe : u.«end» ≠ none → hasProp ps "dtend" = true) :
    patchVEvent now u ps = some (patchVEventT now u ps) := by
  have h1 : hasProp (patchLocation u (patchDescription u (patchSummary u ps)))
      "dtstart" = hasProp ps "dtstart" :=
    hasProp_prefix_stages u ps "dtstart" (by decide) (by decide) (by decide)
  have h2 : hasProp (patchStartT u (patchLocation u (patchDescription u
      (patchSummary u ps)))) "dtend" = hasProp ps "dtend" := by
    unfold hasProp
    rw [getProp_patchStart_ne _ _ _ (fun _ => by decide),
      getProp_patchLocation _ _ _ (fun _ => by decide),
      getProp_patchDescription _ _ _ (fun _ => by decide),
      getProp_patchSummary _ _ _ (fun _ => by decide)]
  unfold patchVEvent
  rw [patchStart_eq_some u _ (fun hs => (h1.trans (hps hs)))]
  show (patchEnd u _).map _ = _
  rw [patchEnd_eq_some u _ (fun hs => (h2.trans (hpe hs)))]
  rfl

theorem patchFirstVEvent_decomp (now : Int) (u : EventUpdate)
    (pre : List VComponent) (v : VComponent) (post : List VComponent)
    (hpre : ∀ c ∈ pre, c.name ≠ "VEVENT") (hv : v.name = "VEVENT") :
    patchFirstVEvent now u (pre ++ v :: post) =
      (patchVEvent now u v.props).map
        (fun ps => pre ++ { v with props := ps } :: post) := by
  induction pre with
  | nil =>
    have hb : (v.name == "VEVENT") = true := by simpa using hv
    simp only [List.nil_append, patchFirstVEvent, hb, if_true, if_pos]
  | cons c cs ih =>
    have hc : (c.name == "VEVENT") = false := by
      simpa using hpre c (by simp)
    simp only [List.cons_append, patchFirstVEvent, hc, Bool.false_eq_true,
      if_false]
    show (patchFirstVEvent now u (cs ++ v :: post)).map (fun rest => c :: rest) = _
    rw [ih (fun c' hc' => hpre c' (by simp [hc'])), Option.map_map]
    rfl

/-! ## Field-level behaviour of `update_icalendar` -/

theorem rawStart_patchVEvent_none (now : Int) (u : EventUpdate) (ps : Props)
    (h : u.start = none) :
    rawStart (patchVEventT now u ps) = rawStart ps := by
  unfold rawStart
  rw [getProp_patchVEvent_dtstart, h]

theorem allDayOf_patchVEvent_startNone (now : Int) (u : EventUpdate) (ps : Props)
    (h : u.start = none) :
    allDayOf (patchVEventT now u ps) = allDayOf ps := by
  unfold allDayOf
  rw [rawStart_patchVEvent_none now u ps h]

theorem allDayOf_patchVEvent (now : Int) (u : EventUpdate) (ps : Props)
    (had : (u.start ≠ none ∨ u.«end» ≠ none) → u.all_day = some (allDayOf ps)) :
    allDayOf (patchVEventT now u ps) = allDayOf ps := by
  cases hs : u.start with
  | none => exact allDayOf_patchVEvent_startNone now u ps hs
  | some t =>
    have had' : u.all_day = some (allDayOf ps) := had (Or.inl (by simp [hs]))
    have hls : allDayOf (patchVEventT now u ps) =
        (if u.all_day = some true then DT.date (minutesToDay t)
         else DT.dateTime t).isDateOnly := by
      unfold allDayOf rawStart
      rw [getProp_patchVEvent_dtstart]
      simp only [hs]
      rfl
    rw [hls, had']
    cases hv : allDayOf ps <;> simp [DT.isDateOnly]

theorem normStart_patchVEvent (now : Int) (u : EventUpdate) (ps : Props)
    (h : u.start = none) :
    normStart (patchVEventT now u ps) = normStart ps := by
  unfold normStart
  rw [rawStart_patchVEvent_none now u ps h, allDayOf_patchVEvent_startNone now u ps h]

theorem getProp_patchVEvent_duration (now : Int) (u : EventUpdate) (ps : Props) :
    getProp (patchVEventT now u ps) "duration" = getProp ps "duration" :=
  getProp_patchVEvent_untouched now u ps "duration" (by decide) (by decide)
    (fun _ => by decide) (fun _ => by decide) (fun _ => by decide)
    (fun _ => by decide) (fun _ => by decide) (fun _ => by decide)

theorem rawEnd_patchVEvent_none (now : Int) (u : EventUpdate) (ps : Props)
    (h : u.«end» = none) :
    rawEnd (patchVEventT now u ps) = rawEnd ps := by
  unfold rawEnd
  rw [getProp_patchVEvent_dtend, h]

theorem derivedEnd_patchVEvent (now : Int) (u : EventUpdate) (ps : Props)
    (hend : u.«end» = none)
    (hde : u.start ≠ none → rawEnd ps ≠ none) :
    derivedEnd (patchVEventT now u ps) = derivedEnd ps := by
  cases hs : u.start with
  | none =>
    unfold derivedEnd
    rw [rawEnd_patchVEvent_none now u ps hend, rawStart_patchVEvent_none now u ps hs,
      getProp_patchVEvent_duration, allDayOf_patchVEvent_startNone now u ps hs]
  | some t =>
    obtain ⟨e, he⟩ : ∃ e, rawEnd ps = some e := by
      cases hre : rawEnd ps with
      | none => exact absurd hre (hde (by simp [hs]))
      | some e => exact ⟨e, rfl⟩
    unfold derivedEnd
    rw [rawEnd_patchVEvent_none now u ps hend, he]

theorem normEnd_patchVEvent (now : Int) (u : EventUpdate) (ps : Props)
    (hend : u.«end» = none)
    (hde : u.start ≠ none → rawEnd ps ≠ none)
    (had : (u.start ≠ none ∨ u.«end» ≠ none) → u.all_day = some (allDayOf ps)) :
    normEnd (patchVEventT now u ps) = normEnd ps := by
  unfold normEnd
  rw [derivedEnd_patchVEvent now u ps hend hde, allDayOf_patchVEvent now u ps had]

/-- C4 (amended): for an applicable patch — one whose named `start`/`end`
properties exist in the stored text, since `update_icalendar` deletes them
unconditionally and raises `KeyError` (producing no text) otherwise —
`applyPatch` changes only the fields named in the patch, with the
qualification forced by the code that when the patch names `start` or `end`
it must also carry the event's all-day flag, and a patched `start` with an
absent explicit end would re-derive the end; the modification timestamp is
regenerated, the revision counter is incremented by exactly one, and every
untouched property is byte-identical. -/
theorem update_icalendar_field_roundtrip (now : Int) (u : EventUpdate)
    (cp : Props) (pre post : List VComponent) (v : VComponent)
    (hpre : ∀ c ∈ pre, c.name ≠ "VEVENT") (hv : v.name = "VEVENT")
    (hps : u.start ≠ none → hasProp v.props "dtstart" = true)
    (hpe : u.«end» ≠ none → hasProp v.props "dtend" = true)
    (had : (u.start ≠ none ∨ u.«end» ≠ none) →
      u.all_day = some (parseVEvent v.props).all_day)
    (hde : u.start ≠ none → u.«end» = none → rawEnd v.props ≠ none) :
    ∃ p p',
      parse_icalendar ⟨cp, pre ++ v :: post⟩ = some p ∧
      (update_icalendar now ⟨cp, pre ++ v :: post⟩ u).bind parse_icalendar =
        some p' ∧
      p'.uid = p.uid ∧
      (u.summary = none → p'.summary = p.summary) ∧
      (u.description = none → p'.description = p.description) ∧
      (u.location = none → p'.location = p.location) ∧
      (u.start = none → p'.start_dt = p.start_dt) ∧
      (u.«end» = none → p'.end_dt = p.end_dt) ∧
      p'.all_day = p.all_day ∧
      (u.rrule = none → p'.rrule = p.rrule) ∧
      p'.exdate = p.exdate ∧
      p'.recurrence_id = p.recurrence_id ∧
      p'.created = p.created ∧
      p'.last_modified = some (.dateTime now) ∧
      p'.sequence = p.sequence + 1 ∧
      (∀ n, n ≠ "last-modified" → n ≠ "sequence" →
        (u.summary.isSome → n ≠ "summary") →
        (u.description.isSome → n ≠ "description") →
        (u.location.isSome → n ≠ "location") →
        (u.start.isSome → n ≠ "dtstart") →
        (u.«end».isSome → n ≠ "dtend") →
        (u.rrule.isSome → n ≠ "rrule") →
        getProp (patchVEventT now u v.props) n = getProp v.props n) := by
  refine ⟨parseVEvent v.props, parseVEvent (patchVEventT now u v.props), ?_, ?_,
    ?_, ?_, ?_, ?_, ?_, ?_, ?_, ?_, ?_, ?_, ?_, ?_, ?_, ?_⟩
  · unfold parse_icalendar
    rw [find?_vevent_decomp pre v post hpre hv]
    rfl
  · unfold update_icalendar
    rw [patchFirstVEvent_decomp now u pre v post hpre hv,
      patchVEvent_eq_someT now u v.props hps hpe]
    show parse_icalendar
      ⟨cp, pre ++ { v with props := patchVEventT now u v.props } :: post⟩ = _
    unfold parse_icalendar
    rw [find?_vevent_decomp pre
      { v with props := patchVEventT now u v.props } post hpre hv]
    rfl
  · show strOrEmpty _ "uid" = strOrEmpty _ "uid"
    unfold strOrEmpty
    rw [getProp_patchVEvent_untouched now u v.props "uid" (by decide) (by decide)
      (fun _ => by decide) (fun _ => by decide) (fun _ => by decide)
      (fun _ => by decide) (fun _ => by decide) (fun _ => by decide)]
  · intro h
    show strOrEmpty _ "summary" = strOrEmpty _ "summary"
    unfold strOrEmpty
    rw [getProp_patchVEvent_untouched now u v.props "summary" (by decide) (by decide)
      (fun hs => absurd hs (by simp [h])) (fun _ => by decide) (fun _ => by decide)
      (fun _ => by decide) (fun _ => by decide) (fun _ => by decide)]
  · intro h
    show strOrNone _ "description" = strOrNone _ "description"
    unfold strOrNone strOrEmpty
    rw [getProp_patchVEvent_untouched now u v.props "description" (by decide) (by decide)
      (fun _ => by decide) (fun hs => absurd hs (by simp [h])) (fun _ => by decide)
      (fun _ => by decide) (fun _ => by decide) (fun _ => by decide)]
  · intro h
    show strOrNone _ "location" = strOrNone _ "location"
    unfold strOrNone strOrEmpty
    rw [getProp_patchVEvent_untouched now u v.props "location" (by decide) (by decide)
      (fun _ => by decide) (fun _ => by decide) (fun hs => absurd hs (by simp [h]))
      (fun _ => by decide) (fun _ => by decide) (fun _ => by decide)]
  · intro h
    show normStart _ = normStart _
    exact normStart_patchVEvent now u v.props h
  · intro h
    show normEnd _ = normEnd _
    exact normEnd_patchVEvent now u v.props h (fun hs => hde hs h) had
  · show allDayOf _ = allDayOf _
    exact allDayOf_patchVEvent now u v.props had
  · intro h
    show (getProp _ "rrule").map recurStr = (getProp _ "rrule").map recurStr
    rw [getProp_patchVEvent_untouched now u v.props "rrule" (by decide) (by decide)
      (fun _ => by decide) (fun _ => by decide) (fun _ => by decide)
      (fun _ => by decide) (fun _ => by decide) (fun hs => absurd hs (by simp [h]))]
  · show exdateStr _ = exdateStr _
    unfold exdateStr
    rw [getProp_patchVEvent_untouched now u v.props "exdate" (by decide) (by decide)
      (fun _ => by decide) (fun _ => by decide) (fun _ => by decide)
      (fun _ => by decide) (fun _ => by decide) (fun _ => by decide)]
  · show strOrNone _ "recurrence-id" = strOrNone _ "recurrence-id"
    unfold strOrNone strOrEmpty
    rw [getProp_patchVEvent_untouched now u v.props "recurrence-id" (by decide) (by decide)
      (fun _ => by decide) (fun _ => by decide) (fun _ => by decide)
      (fun _ => by decide) (fun _ => by decide) (fun _ => by decide)]
  · show (getProp _ "created").bind ICalValue.dtOf = (getProp _ "created").bind ICalValue.dtOf
    rw [getProp_patchVEvent_untouched now u v.props "created" (by decide) (by decide)
      (fun _ => by decide) (fun _ => by decide) (fun _ => by decide)
      (fun _ => by decide) (fun _ => by decide) (fun _ => by decide)]
  · show (getProp _ "last-modified").bind ICalValue.dtOf = _
    rw [getProp_patchVEvent_lastModified]
    rfl
  · show seqRead _ = seqRead _ + 1
    exact seqRead_patchVEvent now u v.props
  · intro n hlm hsq h1 h2 h3 h4 h5 h6
    exact getProp_patchVEvent_untouched now u v.props n hlm hsq h1 h2 h3 h4 h5 h6

/-- C4 counterexample: the claim is false as stated — a patch naming only
`start` on an all-day event changes the parsed `all_day` field (and thus a
field not named in the patch) because the code retypes `dtstart` from the
patch's absent `all_day` flag. -/
theorem update_start_changes_unnamed_allday :
    (parse_icalendar sampleCal).map ParsedEvent.all_day = some true ∧
    ((update_icalendar 99 sampleCal { start := some 15000 }).bind
      parse_icalendar).map ParsedEvent.all_day = some false ∧
    EventUpdate.all_day { start := some 15000 } = none := by
  refine ⟨rfl, rfl, rfl⟩

/-- Witness for the amended C4 theorem at a concrete patch: the revision
counter of the patched sample event is the old one plus one. -/
theorem update_icalendar_field_roundtrip_witness :
    ((update_icalendar 99 sampleCal { summary := some "s2" }).bind
      parse_icalendar).map ParsedEvent.sequence = some 1 := by
  obtain ⟨p, p', h1, h2, -, -, -, -, -, -, -, -, -, -, -, -, hseq, -⟩ :=
    update_icalendar_field_roundtrip 99 { summary := some "s2" } [] [] []
      sampleVEvent (by simp) rfl (by decide) (by decide) (by decide) (by decide)
  have h2' : (update_icalendar 99 sampleCal { summary := some "s2" }).bind
      parse_icalendar = some p' := h2
  have h1' : (some (parseVEvent sampleVEvent.props) : Option ParsedEvent) = some p := h1
  rw [h2', Option.map_some', hseq, ← Option.some.inj h1']
  rfl

/-- C10: the codec operates on the first event block only — `parse` returns
the fields of the first `VEVENT` (ignoring everything after it), and
`applyPatch`'s outcome is determined by the first `VEVENT` alone: when the
patch applies to it, the returned container rewrites only that block,
keeping the container properties, the preceding components and every
subsequent component byte-identical; when the patch raises on it
(`KeyError` from the unconditional deletes), no text is produced at all —
either way the later blocks are never modified. -/
theorem codec_first_vevent_only (now : Int) (u : EventUpdate) (cp : Props)
    (pre post : List VComponent) (v : VComponent)
    (hpre : ∀ c ∈ pre, c.name ≠ "VEVENT") (hv : v.name = "VEVENT") :
    parse_icalendar ⟨cp, pre ++ v :: post⟩ = some (parseVEvent v.props) ∧
    update_icalendar now ⟨cp, pre ++ v :: post⟩ u =
      (patchVEvent now u v.props).map
        (fun ps => ⟨cp, pre ++ { v with props := ps } :: post⟩) := by
  constructor
  · unfold parse_icalendar
    rw [find?_vevent_decomp pre v post hpre hv]
    rfl
  · unfold update_icalendar
    rw [patchFirstVEvent_decomp now u pre v post hpre hv, Option.map_map]
    rfl

/-- Witness for C10 at a concrete calendar holding two `VEVENT`s: the
second block (a recurrence override) is ignored by `parse` and untouched by
the patch. -/
theorem codec_first_vevent_only_witness :
    parse_icalendar ⟨[], [] ++ sampleVEvent :: [sampleVEvent2]⟩ =
      some (parseVEvent sampleVEvent.props) ∧
    update_icalendar 99 ⟨[], [] ++ sampleVEvent :: [sampleVEvent2]⟩
        { summary := some "s2" } =
      (patchVEvent 99 { summary := some "s2" } sampleVEvent.props).map
        (fun ps => ⟨[], [] ++ { sampleVEvent with props := ps } ::
          [sampleVEvent2]⟩) :=
  codec_first_vevent_only 99 { summary := some "s2" } [] [] [sampleVEvent2]
    sampleVEvent (by simp) rfl

/-- C7 counterexample: the claim is false as stated — on a well-formed
container with no `VEVENT`, `parse_icalendar` returns the empty record
normally (the Python code returns `{}` at line 78) instead of failing with a
`ParseError`. -/
theorem parse_no_vevent_not_error :
    parse_icalendar_text (some noEventCal) = .ok none ∧
    parse_icalendar_text (some noEventCal) ≠ .error .malformed := by
  refine ⟨rfl, ?_⟩
  intro h
  rw [show parse_icalendar_text (some noEventCal) = .ok none from rfl] at h
  exact Except.noConfusion h

/-- C7 (amended): `parse` raises only when the container text itself is
malformed; a well-formed container with no event block yields the empty
record, which callers treat as a skip. -/
theorem parse_no_vevent_returns_empty (cal : VCal)
    (h : ∀ c ∈ cal.comps, c.name ≠ "VEVENT") :
    parse_icalendar_text (some cal) = .ok none ∧
    parse_icalendar_text none = .error .malformed := by
  constructor
  · show Except.ok ((cal.comps.find? (fun c => c.name == "VEVENT")).map
      (fun c => parseVEvent c.props)) = Except.ok none
    have hn : cal.comps.find? (fun c => c.name == "VEVENT") = none := by
      rw [List.find?_eq_none]
      intro c hc
      simpa using h c hc
    rw [hn]
    rfl
  · rfl

/-- Witness for the amended C7 theorem at the concrete no-event container. -/
theorem parse_no_vevent_returns_empty_witness :
    parse_icalendar_text (some noEventCal) = .ok none ∧
    parse_icalendar_text none = .error .malformed :=
  parse_no_vevent_returns_empty noEventCal (by decide)

/-- C9: `make_naive` contradicts its own docstring ("Convert timezone-aware
datetime to naive (UTC)") — on the aware value 12:00+05:00 (wall 720,
offset +300) it keeps the wall-clock reading 720 instead of converting to
the UTC instant 420, so the stored value denotes a different instant. -/
theorem make_naive_keeps_wall_clock :
    make_naive ⟨720, some 300⟩ = ⟨720, none⟩ ∧
    instantUTC (make_naive ⟨720, some 300⟩) = 720 ∧
    instantUTC ⟨720, some 300⟩ = 420 ∧
    instantUTC (make_naive ⟨720, some 300⟩) ≠ instantUTC ⟨720, some 300⟩ := by
  refine ⟨rfl, rfl, rfl, by decide⟩

/-! ## List helper lemmas for the sync engine -/

theorem find?_eq_head?_filter {α} (p : α → Bool) (l : List α) :
    l.find? p = (l.filter p).head? := by
  induction l with
  | nil => rfl
  | cons a l ih =>
    by_cases h : p a
    · rw [List.find?_cons_of_pos _ h, List.filter_cons_of_pos h]
      rfl
    · rw [List.find?_cons_of_neg _ (by simpa using h), List.filter_cons_of_neg h]
      exact ih

theorem filter_uid_eq_singleton (l : List LocalEvent) (r : LocalEvent)
    (hmem : r ∈ l) (hnd : (l.map LocalEvent.uid).Nodup) :
    l.filter (fun e => e.uid == r.uid) = [r] := by
  induction l with
  | nil => simp at hmem
  | cons e rest ih =>
    rw [List.map_cons, List.nodup_cons] at hnd
    rcases List.mem_cons.mp hmem with he | hm
    · cases he
      rw [List.filter_cons, if_pos (by simp)]
      have hnil : rest.filter (fun x => x.uid == r.uid) = [] := by
        rw [List.filter_eq_nil_iff]
        intro a ha hbe
        have ha' : a.uid = r.uid := by simpa using hbe
        exact hnd.1 (ha' ▸ List.mem_map_of_mem LocalEvent.uid ha)
      rw [hnil]
    · have hne : e.uid ≠ r.uid := by
        intro hequ
        exact hnd.1 (hequ ▸ List.mem_map_of_mem LocalEvent.uid hm)
      rw [List.filter_cons, if_neg (by simpa using hne)]
      exact ih hm hnd.2

theorem filter_filter_singleton {α} (p q : α → Bool) (l : List α) (x : α)
    (hx : l.filter p = [x]) :
    (l.filter q).filter p = if q x then [x] else [] := by
  induction l with
  | nil => exact absurd hx (by simp)
  | cons a l ih =>
    by_cases hp : p a
    · rw [List.filter_cons_of_pos hp] at hx
      have hax : a = x := (List.cons.injEq _ _ _ _ ▸ hx).1
      have hrest : l.filter p = [] := (List.cons.injEq _ _ _ _ ▸ hx).2
      have hqnil : (l.filter q).filter p = [] := by
        rw [List.filter_eq_nil_iff]
        intro b hb
        exact (List.filter_eq_nil_iff.mp hrest) b (List.mem_of_mem_filter hb)
      subst hax
      by_cases hq : q a
      · rw [List.filter_cons_of_pos hq, List.filter_cons_of_pos hp, if_pos hq, hqnil]
      · rw [List.filter_cons_of_neg hq, if_neg hq]
        exact hqnil
    · rw [List.filter_cons_of_neg hp] at hx
      by_cases hq : q a
      · rw [List.filter_cons_of_pos hq, List.filter_cons_of_neg hp]
        exact (ih hx).trans (by rfl)
      · rw [List.filter_cons_of_neg hq]
        exact (ih hx).trans (by rfl)

theorem replaceByUid_cons_pos (w : String) (f : LocalEvent → LocalEvent)
    (e : LocalEvent) (rest : List LocalEvent) (he : (e.uid == w) = true) :
    replaceByUid w f (e :: rest) = f e :: rest := by
  simp [replaceByUid, he]

theorem replaceByUid_cons_neg (w : String) (f : LocalEvent → LocalEvent)
    (e : LocalEvent) (rest : List LocalEvent) (he : ¬ (e.uid == w) = true) :
    replaceByUid w f (e :: rest) = e :: replaceByUid w f rest := by
  simp [replaceByUid, he]

theorem replaceByUid_filter_ne (w u : String) (f : LocalEvent → LocalEvent)
    (hf : ∀ e, (f e).uid = e.uid) (l : List LocalEvent) (hne : w ≠ u) :
    (replaceByUid w f l).filter (fun e => e.uid == u) =
      l.filter (fun e => e.uid == u) := by
  induction l with
  | nil => rfl
  | cons e rest ih =>
    by_cases he : (e.uid == w) = true
    · have heq : e.uid = w := by simpa using he
      rw [replaceByUid_cons_pos w f e rest he]
      have h1 : ¬ ((f e).uid == u) = true := by
        rw [hf e, heq]
        simpa using hne
      have h2 : ¬ (e.uid == u) = true := by
        rw [heq]
        simpa using hne
      rw [List.filter_cons, if_neg h1, List.filter_cons, if_neg h2]
    · rw [replaceByUid_cons_neg w f e rest he]
      rw [List.filter_cons, List.filter_cons]
      by_cases hu : (e.uid == u) = true
      · rw [if_pos hu, if_pos hu, ih]
      · rw [if_neg hu, if_neg hu, ih]

theorem replaceByUid_filter_self (u : String) (f : LocalEvent → LocalEvent)
    (hf : ∀ e, (f e).uid = e.uid) (l : List LocalEvent) (x : LocalEvent)
    (hx : l.filter (fun e => e.uid == u) = [x]) :
    (replaceByUid u f l).filter (fun e => e.uid == u) = [f x] := by
  induction l with
  | nil => exact absurd hx (by simp)
  | cons e rest ih =>
    by_cases he : (e.uid == u) = true
    · rw [List.filter_cons, if_pos he] at hx
      have hex : e = x := (List.cons.injEq _ _ _ _ ▸ hx).1
      have hrest : rest.filter (fun e => e.uid == u) = [] :=
        (List.cons.injEq _ _ _ _ ▸ hx).2
      rw [replaceByUid_cons_pos u f e rest he, List.filter_cons,
        if_pos (show ((f e).uid == u) = true by rw [hf e]; exact he), hex, hrest]
    · rw [List.filter_cons, if_neg he] at hx
      rw [replaceByUid_cons_neg u f e rest he, List.filter_cons, if_neg he]
      exact ih hx

/-! ## Behaviour of one `do_sync` loop iteration -/

theorem processedUid_inv {ev : DavEvent} {u : String}
    (hu : processedUid ev = some u) :
    ∃ cal p, ev.data = some cal ∧ parse_icalendar cal = some p ∧
      p.uid = u ∧ ¬ p.uid = "" := by
  cases hd : ev.data with
  | none => simp [processedUid, hd] at hu
  | some cal =>
    cases hp : parse_icalendar cal with
    | none => simp [processedUid, hd, hp] at hu
    | some p =>
      by_cases he : p.uid = ""
      · simp [processedUid, hd, hp, he] at hu
      · have hu' : p.uid = u := by
          simpa [processedUid, hd, hp, he] using hu
        exact ⟨cal, p, rfl, hp, hu', he⟩

theorem processDav_skip (push : String → VCal → Bool) (cid : String)
    (acc : SyncAcc) (ev : DavEvent) (h : processedUid ev = none) :
    processDav push cid acc ev = acc := by
  cases hd : ev.data with
  | none => simp [processDav, hd]
  | some cal =>
    cases hp : parse_icalendar cal with
    | none => simp [processDav, hd, hp]
    | some p =>
      have he : p.uid = "" := by
        by_contra he
        simp [processedUid, hd, hp, he] at h
      simp [processDav, hd, hp, he]

theorem processDav_count (push : String → VCal → Bool) (cid : String)
    (acc : SyncAcc) (ev : DavEvent) :
    (processDav push cid acc ev).count =
      acc.count + (if (processedUid ev).isSome then 1 else 0) := by
  cases hu : processedUid ev with
  | none => rw [processDav_skip push cid acc ev hu]; simp
  | some u =>
    show (processDav push cid acc ev).count = acc.count + 1
    obtain ⟨cal, p, hd, hp, hpu, hne⟩ := processedUid_inv hu
    simp only [processDav, hd, hp]
    rw [if_neg hne]
    split
    · split
      · split
        · rfl
        · rfl
      · rfl
    · rfl

theorem processDav_seen (push : String → VCal → Bool) (cid : String)
    (acc : SyncAcc) (ev : DavEvent) :
    (processDav push cid acc ev).seen = acc.seen ++ (processedUid ev).toList := by
  cases hu : processedUid ev with
  | none => rw [processDav_skip push cid acc ev hu]; simp
  | some u =>
    show (processDav push cid acc ev).seen = acc.seen ++ [u]
    obtain ⟨cal, p, hd, hp, hpu, hne⟩ := processedUid_inv hu
    rw [← hpu]
    simp only [processDav, hd, hp]
    rw [if_neg hne]
    split
    · split
      · split
        · rfl
        · rfl
      · rfl
    · rfl

/-- A loop iteration for a different uid leaves the records with uid `u`,
and the push log for uid `u`, untouched. -/
theorem processDav_other_uid (push : String → VCal → Bool) (cid : String)
    (acc : SyncAcc) (ev : DavEvent) (u : String)
    (h : processedUid ev ≠ some u) :
    (processDav push cid acc ev).locals.filter (fun e => e.uid == u) =
      acc.locals.filter (fun e => e.uid == u) ∧
    (processDav push cid acc ev).pushes.filter (fun pr => pr.1 == u) =
      acc.pushes.filter (fun pr => pr.1 == u) := by
  cases hu : processedUid ev with
  | none => rw [processDav_skip push cid acc ev hu]; exact ⟨rfl, rfl⟩
  | some w =>
    have hwu : w ≠ u := fun he => h (he ▸ hu)
    obtain ⟨cal, p, hd, hp, hpu, hne⟩ := processedUid_inv hu
    have hpw : p.uid ≠ u := hpu ▸ hwu
    have hbne : ¬ (p.uid == u) = true := by simpa using hpw
    simp only [processDav, hd, hp]
    rw [if_neg hne]
    split
    · rename_i x0 ex hfind0
      split
      · rename_i hpd
        split
        · rename_i st hx hstr heq1 heq2
          constructor
          · show List.filter (fun e => e.uid == u)
              (if push hstr ex.icalendar_data = true then
                replaceByUid p.uid
                  (fun e => { e with sync_status := SyncStatus.synced }) acc.locals
              else acc.locals) = List.filter (fun e => e.uid == u) acc.locals
            by_cases hok : push hstr ex.icalendar_data = true
            · rw [if_pos hok]
              exact replaceByUid_filter_ne p.uid u
                (fun e => { e with sync_status := SyncStatus.synced })
                (fun e => rfl) acc.locals hpw
            · rw [if_neg hok]
          · show List.filter (fun pr => pr.1 == u)
              (acc.pushes ++ [(p.uid, hstr, ex.icalendar_data)]) =
              List.filter (fun pr => pr.1 == u) acc.pushes
            rw [List.filter_append, List.filter_cons,
              if_neg (show ¬ (((p.uid, hstr, ex.icalendar_data) :
                String × String × VCal).1 == u) = true from hbne),
              List.filter_nil, List.append_nil]
        · exact ⟨rfl, rfl⟩
      · constructor
        · exact replaceByUid_filter_ne p.uid u (overwriteFromRemote p cal ev)
            (fun e => rfl) acc.locals hpw
        · rfl
    · constructor
      · show List.filter (fun e => e.uid == u)
          (acc.locals ++ [newFromRemote cid p cal ev]) =
          List.filter (fun e => e.uid == u) acc.locals
        rw [List.filter_append, List.filter_cons,
          if_neg (show ¬ ((newFromRemote cid p cal ev).uid == u) = true from hbne),
          List.filter_nil, List.append_nil]
      · rfl

/-- A loop iteration for a pending record's own uid: the record's fields are
not overwritten, exactly the pushes of `pendingPushLog` are attempted, and
the status moves to `pendingResultStatus`. -/
theorem processDav_pending (push : String → VCal → Bool) (cid : String)
    (acc : SyncAcc) (ev : DavEvent) (u : String) (r : LocalEvent)
    (hu : processedUid ev = some u)
    (hr : acc.locals.filter (fun e => e.uid == u) = [r])
    (hst : r.sync_status = .pending_update ∨ r.sync_status = .pending_create) :
    (processDav push cid acc ev).locals.filter (fun e => e.uid == u) =
      [{ r with sync_status := pendingResultStatus push r }] ∧
    (processDav push cid acc ev).pushes.filter (fun pr => pr.1 == u) =
      acc.pushes.filter (fun pr => pr.1 == u) ++ pendingPushLog u r := by
  obtain ⟨cal, p, hd, hp, hpu, hne⟩ := processedUid_inv hu
  subst hpu
  have hfind : acc.locals.find? (fun e => e.uid == p.uid) = some r := by
    rw [find?_eq_head?_filter, hr]
    rfl
  simp only [processDav, hd, hp]
  rw [if_neg hne]
  split
  · rename_i x0 ex hfind2
    rw [hfind] at hfind2
    injection hfind2 with hex
    subst hex
    rw [if_pos hst]
    rcases hst with hst | hst
    · cases hh : r.href with
      | some hstr =>
        simp only [hst, hh, pendingResultStatus, pendingPushLog]
        constructor
        · rw [← hh]
          by_cases hok : push hstr r.icalendar_data = true
          · rw [if_pos hok, if_pos hok]
            exact replaceByUid_filter_self p.uid
              (fun e => { e with sync_status := SyncStatus.synced })
              (fun e => rfl) acc.locals r hr
          · rw [if_neg hok, if_neg hok]
            exact hr.trans (by rw [← hst])
        · have h2 : List.filter (fun pr => pr.1 == p.uid)
              (acc.pushes ++ [(p.uid, hstr, r.icalendar_data)]) =
              List.filter (fun pr => pr.1 == p.uid) acc.pushes ++
                [(p.uid, hstr, r.icalendar_data)] := by
            rw [List.filter_append, List.filter_cons, if_pos (by simp),
              List.filter_nil]
          exact h2
      | none =>
        simp only [hst, hh, pendingResultStatus, pendingPushLog]
        refine ⟨hr.trans (by rw [← hh, ← hst]), ?_⟩
        rw [List.append_nil]
    · cases hh : r.href with
      | some hstr =>
        simp only [hst, hh, pendingResultStatus, pendingPushLog]
        refine ⟨hr.trans (by rw [← hh, ← hst]), ?_⟩
        rw [List.append_nil]
      | none =>
        simp only [hst, hh, pendingResultStatus, pendingPushLog]
        refine ⟨hr.trans (by rw [← hh, ← hst]), ?_⟩
        rw [List.append_nil]
  · rename_i hfind2
    rw [hfind] at hfind2
    exact absurd hfind2 (by simp)

theorem processedUids_cons (ev : DavEvent) (l : List DavEvent) :
    processedUids (ev :: l) = (processedUid ev).toList ++ processedUids l := by
  unfold processedUids
  rw [List.filterMap_cons]
  cases processedUid ev <;> rfl

theorem foldl_processDav_count (push : String → VCal → Bool) (cid : String)
    (l : List DavEvent) (acc : SyncAcc) :
    (l.foldl (processDav push cid) acc).count =
      acc.count + l.countP (fun ev => (processedUid ev).isSome) := by
  induction l generalizing acc with
  | nil => simp
  | cons ev l ih =>
    rw [List.foldl_cons, ih, processDav_count, List.countP_cons]
    by_cases hp : (processedUid ev).isSome
    · simp only [hp, if_true, if_pos]
      omega
    · simp only [hp, if_false, if_neg, Bool.false_eq_true, not_false_iff]
      omega

theorem foldl_processDav_seen (push : String → VCal → Bool) (cid : String)
    (l : List DavEvent) (acc : SyncAcc) :
    (l.foldl (processDav push cid) acc).seen = acc.seen ++ processedUids l := by
  induction l generalizing acc with
  | nil =>
    show acc.seen = acc.seen ++ []
    rw [List.append_nil]
  | cons ev l ih =>
    rw [List.foldl_cons, ih, processDav_seen, processedUids_cons,
      List.append_assoc]

theorem foldl_processDav_other (push : String → VCal → Bool) (cid : String)
    (l : List DavEvent) (acc : SyncAcc) (u : String)
    (h : u ∉ processedUids l) :
    (l.foldl (processDav push cid) acc).locals.filter (fun e => e.uid == u) =
      acc.locals.filter (fun e => e.uid == u) ∧
    (l.foldl (processDav push cid) acc).pushes.filter (fun pr => pr.1 == u) =
      acc.pushes.filter (fun pr => pr.1 == u) := by
  induction l generalizing acc with
  | nil => exact ⟨rfl, rfl⟩
  | cons ev l ih =>
    have h1 : processedUid ev ≠ some u := by
      intro he
      apply h
      rw [processedUids_cons, he]
      simp
    have h2 : u ∉ processedUids l := by
      intro hm
      apply h
      rw [processedUids_cons]
      exact List.mem_append_right _ hm
    rw [List.foldl_cons]
    obtain ⟨ha, hb⟩ := processDav_other_uid push cid acc ev u h1
    obtain ⟨hc, hd⟩ := ih (processDav push cid acc ev) h2
    exact ⟨hc.trans ha, hd.trans hb⟩

/-- C3: at the end of one calendar's reconcile pass, a local record whose
uid was not seen in the fetch is deleted when `synced` and retained
unchanged when in any `pending_*` state. -/
theorem reconcile_deletion_sweep (push : String → VCal → Bool) (calId : String)
    (remote : List DavEvent) (locals : List LocalEvent) (r : LocalEvent)
    (hmem : r ∈ locals) (hnd : (locals.map LocalEvent.uid).Nodup)
    (hunseen : r.uid ∉ processedUids remote) :
    (syncCalendar push calId remote locals).locals.filter
        (fun e => e.uid == r.uid) =
      (if r.sync_status = .synced then [] else [r]) := by
  have h0 : locals.filter (fun e => e.uid == r.uid) = [r] :=
    filter_uid_eq_singleton locals r hmem hnd
  obtain ⟨ha, -⟩ :=
    foldl_processDav_other push calId remote ⟨locals, [], 0, []⟩ r.uid hunseen
  have hflt : (remote.foldl (processDav push calId)
      ⟨locals, [], 0, []⟩).locals.filter (fun e => e.uid == r.uid) = [r] :=
    ha.trans h0
  have hseen : (remote.foldl (processDav push calId)
      ⟨locals, [], 0, []⟩).seen = processedUids remote := by
    rw [foldl_processDav_seen]
    show [] ++ _ = _
    rw [List.nil_append]
  show ((remote.foldl (processDav push calId) ⟨locals, [], 0, []⟩).locals.filter
      (fun e =>
        decide (e.uid ∈ (remote.foldl (processDav push calId)
          ⟨locals, [], 0, []⟩).seen) || !(e.sync_status == .synced))).filter
      (fun e => e.uid == r.uid) = _
  rw [filter_filter_singleton _ _ _ r hflt]
  rw [hseen]
  by_cases hsy : r.sync_status = .synced
  · rw [if_pos hsy]
    rw [if_neg (by simp [hsy, hunseen])]
  · rw [if_neg hsy]
    rw [if_pos (by simp [hsy])]

/-- C1 (amended): during a reconcile pass, a pending local record whose uid
appears (once) in the remote fetch is never overwritten with remote data;
a push is attempted only when the record is `pending_update` with a remote
handle — then exactly one update push of the local canonical text, moving
the record to `synced` on success and leaving it pending on failure — and
a `pending_create` record gets no push at all and is left untouched. -/
theorem reconcile_pending_local_wins (push : String → VCal → Bool)
    (calId : String) (pre post : List DavEvent) (ev : DavEvent)
    (locals : List LocalEvent) (r : LocalEvent)
    (hmem : r ∈ locals) (hnd : (locals.map LocalEvent.uid).Nodup)
    (hst : r.sync_status = .pending_update ∨ r.sync_status = .pending_create)
    (hu : processedUid ev = some r.uid)
    (hpre : r.uid ∉ processedUids pre) (hpost : r.uid ∉ processedUids post) :
    (syncCalendar push calId (pre ++ ev :: post) locals).locals.filter
        (fun e => e.uid == r.uid) =
      [{ r with sync_status := pendingResultStatus push r }] ∧
    (syncCalendar push calId (pre ++ ev :: post) locals).pushes.filter
        (fun pr => pr.1 == r.uid) = pendingPushLog r.uid r := by
  have h0 : locals.filter (fun e => e.uid == r.uid) = [r] :=
    filter_uid_eq_singleton locals r hmem hnd
  have hfold : (pre ++ ev :: post).foldl (processDav push calId)
      (⟨locals, [], 0, []⟩ : SyncAcc) =
      post.foldl (processDav push calId)
        (processDav push calId
          (pre.foldl (processDav push calId) ⟨locals, [], 0, []⟩) ev) := by
    rw [List.foldl_append, List.foldl_cons]
  obtain ⟨ha1, hb1⟩ :=
    foldl_processDav_other push calId pre ⟨locals, [], 0, []⟩ r.uid hpre
  have hflt1 : (pre.foldl (processDav push calId)
      ⟨locals, [], 0, []⟩).locals.filter (fun e => e.uid == r.uid) = [r] :=
    ha1.trans h0
  obtain ⟨ha2, hb2⟩ := processDav_pending push calId
    (pre.foldl (processDav push calId) ⟨locals, [], 0, []⟩) ev r.uid r hu
    hflt1 hst
  obtain ⟨ha3, hb3⟩ := foldl_processDav_other push calId post
    (processDav push calId
      (pre.foldl (processDav push calId) ⟨locals, [], 0, []⟩) ev) r.uid hpost
  have hseen : ((pre ++ ev :: post).foldl (processDav push calId)
      (⟨locals, [], 0, []⟩ : SyncAcc)).seen =
      processedUids (pre ++ ev :: post) := by
    rw [foldl_processDav_seen]
    show [] ++ _ = _
    rw [List.nil_append]
  have hmemseen : r.uid ∈ processedUids (pre ++ ev :: post) := by
    unfold processedUids
    rw [List.filterMap_append, List.filterMap_cons, hu]
    exact List.mem_append_right _ (List.mem_cons_self _ _)
  have hfinal : ((pre ++ ev :: post).foldl (processDav push calId)
      (⟨locals, [], 0, []⟩ : SyncAcc)).locals.filter
      (fun e => e.uid == r.uid) =
      [{ r with sync_status := pendingResultStatus push r }] := by
    rw [hfold]
    exact ha3.trans ha2
  constructor
  · show (((pre ++ ev :: post).foldl (processDav push calId)
        (⟨locals, [], 0, []⟩ : SyncAcc)).locals.filter
        (fun e =>
          decide (e.uid ∈ ((pre ++ ev :: post).foldl (processDav push calId)
            (⟨locals, [], 0, []⟩ : SyncAcc)).seen) ||
          !(e.sync_status == .synced))).filter (fun e => e.uid == r.uid) = _
    rw [filter_filter_singleton _ _ _ _ hfinal, hseen]
    rw [if_pos (by simp [hmemseen])]
  · show ((pre ++ ev :: post).foldl (processDav push calId)
        (⟨locals, [], 0, []⟩ : SyncAcc)).pushes.filter
        (fun pr => pr.1 == r.uid) = _
    rw [hfold]
    rw [hb3, hb2]
    have hnilp : ((⟨locals, [], 0, []⟩ : SyncAcc).pushes.filter
        (fun pr => pr.1 == r.uid)) = [] := rfl
    rw [hb1, hnilp, List.nil_append]

/-- C1 counterexample: the claim is false as stated — a `pending_create`
record (no remote handle) whose uid appears in the fetch gets zero push
attempts during the pass (the code only pushes `pending_update` records
with a href), though it is also not overwritten. -/
theorem reconcile_pending_create_not_pushed :
    processedUid sampleDav = some "e1" ∧
    samplePendingCreate.uid = "e1" ∧
    samplePendingCreate.href = none ∧
    (syncCalendar pushFail "c" [sampleDav] [samplePendingCreate]).pushes = [] ∧
    (syncCalendar pushFail "c" [sampleDav] [samplePendingCreate]).locals =
      [samplePendingCreate] := by
  refine ⟨rfl, rfl, rfl, rfl, rfl⟩

/-- Witness for the amended C1 theorem: a concrete `pending_update` record
with handle `h` gets exactly one update push of its local text. -/
theorem reconcile_pending_local_wins_witness :
    (syncCalendar pushFail "c" ([] ++ sampleDav :: [])
        [samplePendingUpdate]).locals.filter
        (fun e => e.uid == samplePendingUpdate.uid) =
      [{ samplePendingUpdate with
          sync_status := pendingResultStatus pushFail samplePendingUpdate }] ∧
    (syncCalendar pushFail "c" ([] ++ sampleDav :: [])
        [samplePendingUpdate]).pushes.filter
        (fun pr => pr.1 == samplePendingUpdate.uid) =
      pendingPushLog samplePendingUpdate.uid samplePendingUpdate :=
  reconcile_pending_local_wins pushFail "c" [] [] sampleDav
    [samplePendingUpdate] samplePendingUpdate (by simp) (by simp)
    (Or.inl rfl) (by decide) (by simp [processedUids])
    (by simp [processedUids])

/-- Witness for C3 at concrete records: with an empty fetch, the synced
sample record is deleted and the pending-create sample record is retained
unchanged. -/
theorem reconcile_deletion_sweep_witness :
    (syncCalendar pushFail "c" [] [sampleSynced]).locals.filter
        (fun e => e.uid == sampleSynced.uid) = [] ∧
    (syncCalendar pushFail "c" [] [samplePendingCreate]).locals.filter
        (fun e => e.uid == samplePendingCreate.uid) =
      [samplePendingCreate] := by
  constructor
  · have h := reconcile_deletion_sweep pushFail "c" [] [sampleSynced]
      sampleSynced (by simp) (by simp) (by simp [processedUids])
    rw [if_pos (show sampleSynced.sync_status = SyncStatus.synced from rfl)] at h
    exact h
  · have h := reconcile_deletion_sweep pushFail "c" [] [samplePendingCreate]
      samplePendingCreate (by simp) (by simp) (by simp [processedUids])
    rw [if_neg (show ¬ samplePendingCreate.sync_status = SyncStatus.synced
      from by decide)] at h
    exact h

/-! ## The reported `events_updated` count -/

theorem syncCalendar_events_updated (push : String → VCal → Bool)
    (cid : String) (remote : List DavEvent) (locals : List LocalEvent) :
    (syncCalendar push cid remote locals).events_updated =
      remCount (some remote) := by
  show (remote.foldl (processDav push cid) ⟨locals, [], 0, []⟩).count = _
  rw [foldl_processDav_count]
  show 0 + _ = _
  rw [Nat.zero_add]
  rfl

theorem foldl_doSyncStep (push : String → VCal → Bool)
    (cals : List CalendarState) (acc : List CalendarState × Nat × Nat) :
    (cals.foldl (doSyncStep push) acc).2.2 = acc.2.2 + passCount cals ∧
    (cals.foldl (doSyncStep push) acc).1.map (fun c => c.remote) =
      acc.1.map (fun c => c.remote) ++ cals.map (fun c => c.remote) := by
  induction cals generalizing acc with
  | nil =>
    refine ⟨?_, ?_⟩
    · simp [passCount]
    · simp
  | cons c cals ih =>
    have hstep : (doSyncStep push acc c).2.2 = acc.2.2 + remCount c.remote ∧
        (doSyncStep push acc c).1.map (fun c => c.remote) =
          acc.1.map (fun c => c.remote) ++ [c.remote] := by
      cases hr : c.remote with
      | none =>
        refine ⟨?_, ?_⟩
        · simp [doSyncStep, hr, remCount]
        · simp [doSyncStep, hr]
      | some r =>
        refine ⟨?_, ?_⟩
        · simp only [doSyncStep, hr]
          rw [syncCalendar_events_updated]
        · simp [doSyncStep, hr]
    obtain ⟨ihc, ihm⟩ := ih (doSyncStep push acc c)
    rw [List.foldl_cons]
    refine ⟨?_, ?_⟩
    · rw [ihc, hstep.1]
      have hpc : passCount (c :: cals) = remCount c.remote + passCount cals := by
        unfold passCount
        rw [List.map_cons, List.sum_cons]
      rw [hpc]
      omega
    · rw [ihm, hstep.2, List.map_cons, List.append_assoc, List.singleton_append]

/-- C2 (amended): the reported `events_updated` of a pass is a function of
the fetched items alone — every successfully parsed remote item is counted,
touched or not — so an immediately following pass over the same calendars
reports the same count again (the number of parsed remote items), not 0. -/
theorem do_sync_count_is_fetch_count (push : String → VCal → Bool)
    (cals : List CalendarState) :
    (do_sync push cals).2.2 = passCount cals ∧
    (do_sync push (do_sync push cals).1).2.2 = passCount cals := by
  obtain ⟨h1, hm1⟩ := foldl_doSyncStep push cals ([], 0, 0)
  have hc1 : (do_sync push cals).2.2 = passCount cals := by
    show (cals.foldl (doSyncStep push) ([], 0, 0)).2.2 = _
    rw [h1]
    simp
  refine ⟨hc1, ?_⟩
  obtain ⟨h2, -⟩ := foldl_doSyncStep push (do_sync push cals).1 ([], 0, 0)
  have hmap : (do_sync push cals).1.map (fun c => c.remote) =
      cals.map (fun c => c.remote) := by
    show (cals.foldl (doSyncStep push) ([], 0, 0)).1.map (fun c => c.remote) = _
    rw [hm1]
    simp
  have hpc : passCount (do_sync push cals).1 = passCount cals := by
    unfold passCount
    have hcomp : ∀ (l : List CalendarState),
        l.map (fun c => remCount c.remote) =
          (l.map (fun c => c.remote)).map remCount := by
      intro l
      rw [List.map_map]
      rfl
    rw [hcomp, hcomp, hmap]
  show (((do_sync push cals).1).foldl (doSyncStep push) ([], 0, 0)).2.2 = _
  rw [h2, hpc]
  simp

/-- C2 counterexample: a first pass over one calendar with one remote event
inserts it; the immediately following pass with no intervening change
reports `events_updated = 1`, not `0` — the loop counts every parsed remote
item again. -/
theorem reconcile_second_pass_counts_again :
    (do_sync pushFail (do_sync pushFail
      [⟨"c", some [sampleDav], []⟩]).1).2.2 = 1 ∧
    (do_sync pushFail (do_sync pushFail
      [⟨"c", some [sampleDav], []⟩]).1).2.2 ≠ 0 := by
  refine ⟨rfl, by decide⟩

/-! ## Recurrence expansion lemmas -/

theorem expandOne_uid (evalR : RecurEval) (ws we : Int) (e : LocalEvent)
    (i : ExpandedEventResponse) (hi : i ∈ expandOne evalR ws we e) :
    i.uid = e.uid := by
  unfold expandOne at hi
  by_cases hr : pyTruthy e.rrule = true
  · rw [if_pos hr] at hi
    cases hv : evalR e.icalendar_data ws we with
    | some insts =>
      rw [hv] at hi
      obtain ⟨inst, -, rfl⟩ := List.mem_map.mp hi
      rfl
    | none =>
      rw [hv] at hi
      rw [List.mem_singleton] at hi
      subst hi
      rfl
  · rw [if_neg hr] at hi
    rw [List.mem_singleton] at hi
    subst hi
    rfl

theorem filter_uid_expand_base_nil (evalR : RecurEval) (ws we : Int)
    (l : List LocalEvent) (u : String) (h : ∀ x ∈ l, x.uid ≠ u) :
    (l.foldr (fun e acc => expandOne evalR ws we e ++ acc) []).filter
      (fun i => i.uid == u) = [] := by
  induction l with
  | nil => rfl
  | cons e l ih =>
    rw [List.foldr_cons, List.filter_append,
      ih (fun x hx => h x (List.mem_cons_of_mem e hx))]
    rw [List.append_nil, List.filter_eq_nil_iff]
    intro i hi hb
    have hui := expandOne_uid evalR ws we e i hi
    have : e.uid = u := hui ▸ (by simpa using hb)
    exact h e (List.mem_cons_self e l) this

theorem filter_uid_expand_base (evalR : RecurEval) (ws we : Int)
    (l : List LocalEvent) (e : LocalEvent) (hmem : e ∈ l)
    (hnd : (l.map LocalEvent.uid).Nodup) :
    (l.foldr (fun x acc => expandOne evalR ws we x ++ acc) []).filter
      (fun i => i.uid == e.uid) = expandOne evalR ws we e := by
  induction l with
  | nil => simp at hmem
  | cons a l ih =>
    rw [List.map_cons, List.nodup_cons] at hnd
    rw [List.foldr_cons, List.filter_append]
    rcases List.mem_cons.mp hmem with ha | hm
    · cases ha
      rw [filter_uid_expand_base_nil evalR ws we l e.uid
        (fun x hx hxe => hnd.1 (hxe ▸ List.mem_map_of_mem LocalEvent.uid hx))]
      rw [List.append_nil, List.filter_eq_self.mpr]
      intro i hi
      simpa using expandOne_uid evalR ws we e i hi
    · have hne : a.uid ≠ e.uid := by
        intro hequ
        exact hnd.1 (hequ ▸ List.mem_map_of_mem LocalEvent.uid hm)
      have hnil : (expandOne evalR ws we a).filter (fun i => i.uid == e.uid) = [] := by
        rw [List.filter_eq_nil_iff]
        intro i hi hb
        exact hne ((expandOne_uid evalR ws we a i hi) ▸ (by simpa using hb))
      rw [hnil, List.nil_append]
      exact ih hm hnd.2

theorem filter_uid_expand_perm (evalR : RecurEval) (ws we : Int)
    (l : List LocalEvent) (e : LocalEvent) (hmem : e ∈ l)
    (hnd : (l.map LocalEvent.uid).Nodup) :
    ((expand_recurring_events evalR l ws we).filter
      (fun i => i.uid == e.uid)).Perm (expandOne evalR ws we e) := by
  unfold expand_recurring_events
  have hperm := List.mergeSort_perm
    (l.foldr (fun x acc => expandOne evalR ws we x ++ acc) [])
    (fun a b => instKey a ≤ instKey b)
  have h1 := hperm.filter (fun i => i.uid == e.uid)
  rw [filter_uid_expand_base evalR ws we l e hmem hnd] at h1
  exact h1

/-- C8: when rule evaluation fails for a recurring event, expansion emits
exactly one instance for it, carrying the master's stored start and end,
tagged recurring with the master uid, instead of dropping the event. -/
theorem expansion_failure_fallback (evalR : RecurEval) (ws we : Int)
    (l : List LocalEvent) (e : LocalEvent)
    (hmem : e ∈ l) (hnd : (l.map LocalEvent.uid).Nodup)
    (hrr : pyTruthy e.rrule = true)
    (hfail : evalR e.icalendar_data ws we = none) :
    (expand_recurring_events evalR l ws we).filter
      (fun i => i.uid == e.uid) = [fallbackInstance e] ∧
    (fallbackInstance e).start = e.start_dt ∧
    (fallbackInstance e).«end» = e.end_dt ∧
    (fallbackInstance e).is_recurring = true ∧
    (fallbackInstance e).master_uid = some e.uid := by
  have hperm := filter_uid_expand_perm evalR ws we l e hmem hnd
  have hone : expandOne evalR ws we e = [fallbackInstance e] := by
    unfold expandOne
    rw [if_pos hrr, hfail]
  rw [hone] at hperm
  exact ⟨List.perm_singleton.mp hperm, rfl, rfl, rfl, rfl⟩

/-- Witness for C8: a concrete recurring record under an evaluator that
always raises yields exactly its fallback instance. -/
theorem expansion_failure_fallback_witness :
    (expand_recurring_events evalRaises [sampleRecurring] 0 10000).filter
      (fun i => i.uid == sampleRecurring.uid) =
      [fallbackInstance sampleRecurring] ∧
    (fallbackInstance sampleRecurring).start = sampleRecurring.start_dt ∧
    (fallbackInstance sampleRecurring).«end» = sampleRecurring.end_dt ∧
    (fallbackInstance sampleRecurring).is_recurring = true ∧
    (fallbackInstance sampleRecurring).master_uid =
      some sampleRecurring.uid :=
  expansion_failure_fallback evalRaises 0 10000 [sampleRecurring]
    sampleRecurring (by simp) (by simp) (by decide) rfl

/-- C5 (amended): a non-recurring event is listed exactly once iff the
closed intervals meet — `start ≤ windowEnd` and `windowStart ≤ end` — so an
event whose end equals the window start, or whose start equals the window
end, is included, not excluded. -/
theorem list_events_nonrecurring_overlap (evalR : RecurEval) (ws we : Int)
    (db : List LocalEvent) (e : LocalEvent) (s en : DT)
    (hmem : e ∈ db) (hnd : (db.map LocalEvent.uid).Nodup)
    (hrr : e.rrule = none) (hs : e.start_dt = some s) (hen : e.end_dt = some en) :
    (list_events evalR none ws we db).filter (fun i => i.uid == e.uid) =
      (if s.toMinutes ≤ we ∧ ws ≤ en.toMinutes then [nonRecurringInstance e]
       else []) := by
  have hq : eventMatchesQuery ws we e =
      decide (s.toMinutes ≤ we ∧ ws ≤ en.toMinutes) := by
    unfold eventMatchesQuery
    rw [hs, hen, hrr]
    by_cases h1 : s.toMinutes ≤ we <;> by_cases h2 : ws ≤ en.toMinutes <;>
      simp [h1, h2]
  show ((expand_recurring_events evalR
      (db.filter (eventMatchesQuery ws we)) ws we)).filter
      (fun i => i.uid == e.uid) = _
  by_cases hc : s.toMinutes ≤ we ∧ ws ≤ en.toMinutes
  · rw [if_pos hc]
    have hmem' : e ∈ db.filter (eventMatchesQuery ws we) :=
      List.mem_filter.mpr ⟨hmem, by rw [hq]; simpa using hc⟩
    have hnd' : ((db.filter (eventMatchesQuery ws we)).map
        LocalEvent.uid).Nodup :=
      hnd.sublist ((db.filter_sublist).map LocalEvent.uid)
    have hperm := filter_uid_expand_perm evalR ws we
      (db.filter (eventMatchesQuery ws we)) e hmem' hnd'
    have hone : expandOne evalR ws we e = [nonRecurringInstance e] := by
      unfold expandOne
      rw [if_neg (by rw [hrr]; simp [pyTruthy])]
    rw [hone] at hperm
    exact List.perm_singleton.mp hperm
  · rw [if_neg hc]
    have hq' : eventMatchesQuery ws we e = false := by
      rw [hq]
      simpa using hc
    have hall : ∀ x ∈ db.filter (eventMatchesQuery ws we), x.uid ≠ e.uid := by
      intro x hx hxe
      have hxdb := List.mem_of_mem_filter hx
      have hxq := List.of_mem_filter hx
      have hxeq : x = e :=
        List.inj_on_of_nodup_map hnd hxdb hmem hxe
      rw [hxeq, hq'] at hxq
      exact Bool.false_ne_true hxq
    unfold expand_recurring_events
    have hperm := List.mergeSort_perm
      ((db.filter (eventMatchesQuery ws we)).foldr
        (fun x acc => expandOne evalR ws we x ++ acc) [])
      (fun a b => instKey a ≤ instKey b)
    have h1 := hperm.filter (fun i => i.uid == e.uid)
    rw [filter_uid_expand_base_nil evalR ws we _ e.uid hall] at h1
    exact List.Perm.eq_nil h1

/-- C5 counterexample: the claim is false as stated — a non-recurring event
spanning minutes 60–120 is included in the listing for the window
[120, 180), although its half-open interval does not overlap the half-open
window (its end equals the window start). -/
theorem list_events_boundary_included :
    sampleSynced.end_dt = some (.dateTime 120) ∧
    sampleSynced.rrule = none ∧
    (list_events evalRaises none 120 180 [sampleSynced]).filter
      (fun i => i.uid == sampleSynced.uid) =
      [nonRecurringInstance sampleSynced] := by
  refine ⟨rfl, rfl, ?_⟩
  have h1 : list_events evalRaises none 120 180 [sampleSynced] =
      ([nonRecurringInstance sampleSynced]).mergeSort
        (fun a b => instKey a ≤ instKey b) := rfl
  rw [h1, List.mergeSort_singleton]
  rfl

/-- Witness for the amended C5 theorem: the boundary-touching sample event
is included exactly once for the window starting at its end. -/
theorem list_events_nonrecurring_overlap_witness :
    (list_events evalRaises none 120 180 [sampleSynced]).filter
      (fun i => i.uid == sampleSynced.uid) =
      [nonRecurringInstance sampleSynced] := by
  have h := list_events_nonrecurring_overlap evalRaises 120 180 [sampleSynced]
    sampleSynced (.dateTime 60) (.dateTime 120) (by simp) (by simp) rfl rfl rfl
  rw [if_pos (by decide)] at h
  exact h

/-! ## Local mutation paths of the events API -/

/-- C6 counterexample: the claim is false as stated — `delete_event` never
sets a `pending_*` state: with a connected service whose remote delete
fails, the remote delete is attempted once (its boolean result ignored) and
the local record is removed unconditionally, so no pending record remains
for a later pass to retry. -/
theorem delete_event_no_pending_retry :
    failingService.deleteEvent "h" = false ∧
    delete_event (some failingService) "e1" [sampleSynced] =
      some ⟨[], ["h"]⟩ := by
  refine ⟨rfl, rfl⟩

/-- C6 (amended): the update path follows the claim for any remote outcome —
the local record gets the patched fields, the new canonical text and
`pending_update` first; when connected with a handle exactly one remote
push of the new text is attempted, and the record is stored `synced` on
success and still `pending_update` on failure (no handle: no push, still
pending); a `KeyError` from the patch aborts before any local write; the
create path attempts the one remote push before the local write but still
retains the record locally, `synced` exactly when a handle came back and
`pending_create` otherwise; the delete path (see the counterexample) uses
no pending state at all. -/
theorem local_mutation_update_create (svc : RemoteOracle) (now : Int)
    (uid : String) (u : EventUpdate) (db : List LocalEvent) (e : LocalEvent)
    (newIcal : VCal) (ev : EventCreate) (uid2 : String)
    (hg : svc.getCalendar = true)
    (hfind : db.find? (fun x => x.uid == uid) = some e)
    (hni : update_icalendar now e.icalendar_data u = some newIcal) :
    update_event (some svc) now uid u db =
      (match e.href with
       | some h =>
         if svc.updateEvent h newIcal then
           .ok (replaceByUid uid (fun _ =>
             { applyLocalUpdate u now newIcal e with
               sync_status := .synced }) db) [(h, newIcal)]
         else
           .ok (replaceByUid uid (fun _ =>
             applyLocalUpdate u now newIcal e) db) [(h, newIcal)]
       | none =>
         .ok (replaceByUid uid (fun _ =>
           applyLocalUpdate u now newIcal e) db) []) ∧
    (applyLocalUpdate u now newIcal e).sync_status = .pending_update ∧
    (applyLocalUpdate u now newIcal e).icalendar_data = newIcal ∧
    (∀ u', update_icalendar now e.icalendar_data u' = none →
      update_event (some svc) now uid u' db = .patchError) ∧
    create_event (some svc) now uid2 ev db =
      (db ++ [localEventOfCreate now uid2
        (svc.createEvent (create_icalendar now ev uid2)) ev
        (create_icalendar now ev uid2)], [create_icalendar now ev uid2]) ∧
    (localEventOfCreate now uid2
      (svc.createEvent (create_icalendar now ev uid2)) ev
      (create_icalendar now ev uid2)).sync_status =
      (if (svc.createEvent (create_icalendar now ev uid2)).isSome then
        .synced else .pending_create) := by
  refine ⟨?_, rfl, rfl, ?_, ?_, rfl⟩
  · simp only [update_event, hfind, hni]
    rw [show (applyLocalUpdate u now newIcal e).href = e.href from rfl]
    cases hh : e.href with
    | none => rfl
    | some h => simp [hg]
  · intro u' hrm
    simp [update_event, hfind, hrm]
  · simp [create_event, hg]

/-- Witness for the amended C6 theorem at concrete inputs: with a connected
remote on which every push fails, an update attempts exactly one push of the
new text and leaves the record pending locally, and a create attempts one
push and retains a `pending_create` record locally. -/
theorem local_mutation_update_create_witness :
    update_event (some failingService) 99 "e1" { summary := some "s2" }
        [samplePendingUpdate] =
      .ok (replaceByUid "e1" (fun _ =>
        applyLocalUpdate { summary := some "s2" } 99 ⟨[], []⟩
          samplePendingUpdate) [samplePendingUpdate]) [("h", ⟨[], []⟩)] ∧
    (applyLocalUpdate { summary := some "s2" } 99 ⟨[], []⟩
      samplePendingUpdate).sync_status = .pending_update ∧
    create_event (some failingService) 99 "u2" sampleCreate
        [samplePendingUpdate] =
      ([samplePendingUpdate] ++ [localEventOfCreate 99 "u2" none sampleCreate
        (create_icalendar 99 sampleCreate "u2")],
       [create_icalendar 99 sampleCreate "u2"]) ∧
    (localEventOfCreate 99 "u2" none sampleCreate
      (create_icalendar 99 sampleCreate "u2")).sync_status =
      .pending_create := by
  obtain ⟨h1, h2, -, -, h5, h6⟩ :=
    local_mutation_update_create failingService 99 "e1" { summary := some "s2" }
      [samplePendingUpdate] samplePendingUpdate ⟨[], []⟩ sampleCreate "u2"
      rfl rfl rfl
  exact ⟨h1, h2, h5, h6⟩

end AirCal
